import Mathlib

/-! Air-pollution dashboard: the filtering and aggregation pipeline.

A shallow embedding of the data pipeline of `src/js/script.js`: the row filter of
`updateDashboard` and the summaries that the six `draw…` functions compute from the
filtered rows before handing them to D3 for rendering.

Conventions of the embedding.

* A JavaScript array is a `List`; a JavaScript `Map` or plain object used as a dictionary is a
  list of key/value pairs kept in insertion order (the iteration order of a `Map`, and of an
  object whose keys are not array indices).
* A row produced by `d3.csv` has text cells.  The three text columns are `String`s.  Each
  pollutant column is kept as the result of the numeric coercion `+cell`: `some q` when the
  cell reads as the number `q`, `none` when the coercion yields `NaN`.
* The running sums of `drawHorizontalBarChart` are double-precision sums: every addition
  rounds to the nearest double (`jsAdd`).  Quotients and means are exact rationals.
-/

namespace AirPollution

/-! ## Rows -/

/-- One row of `allData`. -/
structure Row where
  country : String
  city : String
  aqi_category : String
  co_aqi : Option ℚ
  ozone_aqi : Option ℚ
  no2_aqi : Option ℚ
  pm25_aqi : Option ℚ
  deriving DecidableEq, Repr

/-! ## Built-ins used by the script -/

/-- The method `String.prototype.toLowerCase`, on its ASCII part: the letters `A`–`Z` become
`a`–`z`, every other character is kept. -/
def toLowerCase (s : String) : String := ⟨s.data.map Char.toLower⟩

/-- The regular-expression class `\w`: an ASCII letter, an ASCII digit or `_`. -/
def isWordChar (c : Char) : Bool := c.isAlphanum || c == '_'

/-- The replacement loop of `str.replace(/\b\w/g, char => char.toUpperCase())`:
`prevWord` tells whether the character before the current one is a `\w` character.
`\b\w` matches a `\w` character that is not preceded by one. -/
def capitalizeFrom (prevWord : Bool) : List Char → List Char
  | [] => []
  | c :: cs =>
    (if isWordChar c && !prevWord then c.toUpper else c) :: capitalizeFrom (isWordChar c) cs

/-- The arrow function `capitalizeWords` of `drawPieChart`. -/
def capitalizeWords (str : String) : String := ⟨capitalizeFrom false str.data⟩

/-- The method `Array.prototype.sort(compare)`: a stable sort; `a` is placed before `b`
when `compare(a, b) ≤ 0`.  For a comparator that is a difference of keys the stable sorted
order is unique, so insertion from the right stands for whichever algorithm the engine runs. -/
def arraySort {α N : Type} [Zero N] [LE N] [DecidableRel (fun (x y : N) => x ≤ y)]
    (compare : α → α → N) (l : List α) : List α :=
  l.insertionSort (fun a b => compare a b ≤ 0)

/-- One `Map` update of `d3.group`: push `d` on the array stored under `k`, or store `[d]`
under `k` as the newest key. -/
def groupPush {α : Type} (k : String) (d : α) : List (String × List α) → List (String × List α)
  | [] => [(k, [d])]
  | (k', v) :: rest => if k' = k then (k', v ++ [d]) :: rest else (k', v) :: groupPush k d rest

/-- The function `d3.group(data, key)`: a `Map` from key to the array of rows with that key,
keys in order of first appearance, rows in their original order. -/
def group {α : Type} (data : List α) (key : α → String) : List (String × List α) :=
  data.foldl (fun groups d => groupPush (key d) d groups) []

/-- The function `d3.rollup(data, reduce, key)`: `d3.group` with every group reduced. -/
def rollup {α β : Type} (data : List α) (reduce : List α → β) (key : α → String) :
    List (String × β) :=
  (group data key).map (fun kv => (kv.1, reduce kv.2))

/-! ## updateDashboard: the row filter -/

/-- The filtering step of `updateDashboard(selectedCountry)`, with the global
`selectedCategory` passed explicitly.  A row's `aqi_category` is truthy when it is not the
empty string. -/
def updateDashboard (allData : List Row) (selectedCountry selectedCategory : String) :
    List Row :=
  let filteredData :=
    if selectedCountry = "all" then allData
    else allData.filter (fun d => d.country = selectedCountry)
  if selectedCategory ≠ "all" then
    let catLower := toLowerCase selectedCategory
    filteredData.filter (fun d => d.aqi_category ≠ "" ∧ toLowerCase d.aqi_category = catLower)
  else filteredData

/-! ## Numbers -/

/-- A JavaScript number as far as the script can produce one: a finite value (an exact
rational, rounding is not modelled), one of the two infinities, or `NaN`.  Zero is `+0`; the
script never produces `-0` (its zeros come from `|| 0`, from sums and from `0 / n`). -/
inductive JSNumber where
  | finite (q : ℚ)
  | posInf
  | negInf
  | nan
  deriving DecidableEq

namespace JSNumber

/-- The operator `+` on numbers. -/
def add : JSNumber → JSNumber → JSNumber
  | finite a, finite b => finite (a + b)
  | finite _, posInf => posInf
  | finite _, negInf => negInf
  | posInf, finite _ => posInf
  | posInf, posInf => posInf
  | negInf, finite _ => negInf
  | negInf, negInf => negInf
  | _, _ => nan

/-- The operator `*` on numbers. -/
def mul : JSNumber → JSNumber → JSNumber
  | finite a, finite b => finite (a * b)
  | finite a, posInf => if a = 0 then nan else if 0 < a then posInf else negInf
  | finite a, negInf => if a = 0 then nan else if 0 < a then negInf else posInf
  | posInf, finite b => if b = 0 then nan else if 0 < b then posInf else negInf
  | negInf, finite b => if b = 0 then nan else if 0 < b then negInf else posInf
  | posInf, posInf => posInf
  | negInf, negInf => posInf
  | posInf, negInf => negInf
  | negInf, posInf => negInf
  | _, _ => nan

/-- The operator `/` on numbers: `0 / 0` is `NaN`, a non-zero value over `0` is an infinity. -/
def div : JSNumber → JSNumber → JSNumber
  | finite a, finite b =>
    if b = 0 then (if a = 0 then nan else if 0 < a then posInf else negInf) else finite (a / b)
  | finite _, posInf => finite 0
  | finite _, negInf => finite 0
  | posInf, finite b => if 0 ≤ b then posInf else negInf
  | negInf, finite b => if 0 ≤ b then negInf else posInf
  | _, _ => nan

/-- The value a possibly `undefined` number takes inside arithmetic: `undefined` reads as
`NaN`. -/
def ofOption : Option ℚ → JSNumber
  | some q => finite q
  | none => nan

end JSNumber

/-- The expression `+cell || 0`: `NaN` and `0` are falsy and give `0`. -/
def orZero (cell : Option ℚ) : ℚ := cell.getD 0

/-- Rounding to the nearest integer, a tie going to the even neighbour. -/
def roundHalfEven (x : ℚ) : ℤ :=
  if x - ⌊x⌋ < 1 / 2 then ⌊x⌋
  else if 1 / 2 < x - ⌊x⌋ then ⌊x⌋ + 1
  else if ⌊x⌋ % 2 = 0 then ⌊x⌋ else ⌊x⌋ + 1

/-- The spacing of the doubles around `q`: 2 to the power (exponent of `q`) - 52, the
exponent being at least -1022 (below that the doubles are subnormal, with spacing
2 to the power -1074). -/
def ulpOf (q : ℚ) : ℚ := 2 ^ (max (Int.log 2 |q|) (-1022) - 52)

/-- The double nearest to `q`, a tie going to the even significand (IEEE 754
round-to-nearest-even), for `q` below 2 to the power 1024 in absolute value. -/
def roundDouble (q : ℚ) : ℚ :=
  if q = 0 then 0 else (roundHalfEven (q / ulpOf q) : ℚ) * ulpOf q

/-- The operator `+` on two finite doubles: the exact sum, rounded to a double. -/
def jsAdd (a b : ℚ) : ℚ := roundDouble (a + b)

/-- The function `d3.mean(values, accessor)` for an accessor that always yields a number:
`undefined` on an empty array, otherwise the sum over the count. -/
def mean {α : Type} (values : List α) (accessor : α → ℚ) : Option ℚ :=
  if values.length = 0 then none
  else some ((values.map accessor).sum / (values.length : ℚ))

/-! ## drawBarChart: top 15 countries by count -/

/-- An element of `countryCounts`. -/
structure CountryCount where
  country : String
  count : Nat
  deriving DecidableEq, Repr

/-- The array `countryCounts` of `drawBarChart`. -/
def countryCounts (data : List Row) : List CountryCount :=
  (arraySort (fun a b => (b.count : Int) - (a.count : Int))
    ((rollup data List.length (fun d => d.country)).map
      (fun kv => (⟨kv.1, kv.2⟩ : CountryCount)))).take 15

/-! ## drawPieChart: category distribution -/

/-- The array `predefinedOrder` of `drawPieChart`. -/
def predefinedOrder : List String :=
  ["Good", "Moderate", "Unhealthy For Sensitive Groups", "Unhealthy", "Very Unhealthy",
    "Hazardous"]

/-- The method `Array.prototype.indexOf`: the first position of `x`, or `-1`. -/
def indexOf (xs : List String) (x : String) : Int :=
  if x ∈ xs then (xs.indexOf x : Int) else -1

/-- An element of `categoryCounts`. -/
structure CategoryCount where
  category : String
  count : Nat
  deriving DecidableEq, Repr

/-- The array `categoryCounts` of `drawPieChart`. -/
def categoryCounts (data : List Row) : List CategoryCount :=
  arraySort (fun a b => indexOf predefinedOrder a.category - indexOf predefinedOrder b.category)
    ((rollup data List.length (fun d => d.aqi_category)).map
      (fun kv => (⟨capitalizeWords kv.1, kv.2⟩ : CategoryCount)))

/-! ## drawHeatmap: country × category proportions -/

/-- An element of `countries` in `drawHeatmap`. -/
structure CountryProportions where
  country : String
  total : Nat
  good : JSNumber
  moderate : JSNumber
  unhealthy_sensitive : JSNumber
  unhealthy : JSNumber
  very_unhealthy : JSNumber
  hazardous : JSNumber
  deriving DecidableEq

/-- The expression `value.filter(d => d.aqi_category === name).length / value.length`. -/
def proportion (value : List Row) (name : String) : JSNumber :=
  JSNumber.div (.finite ((value.filter (fun d => d.aqi_category = name)).length : ℚ))
    (.finite (value.length : ℚ))

/-- The array `countries` of `drawHeatmap`. -/
def countries (data : List Row) : List CountryProportions :=
  (group data (fun d => d.country)).map (fun kv =>
    ⟨kv.1, kv.2.length, proportion kv.2 "good", proportion kv.2 "moderate",
      proportion kv.2 "unhealthy for sensitive groups", proportion kv.2 "unhealthy",
      proportion kv.2 "very unhealthy", proportion kv.2 "hazardous"⟩)

/-- The array `topCountries` of `drawHeatmap`. -/
def topCountries (data : List Row) : List CountryProportions :=
  (arraySort (fun a b => (b.total : Int) - (a.total : Int)) (countries data)).take 15

/-! ## drawStackedBarChart: per-country pollutant means and shares -/

/-- The array `topCountriesArr` of `drawStackedBarChart`. -/
def topCountriesArr (data : List Row) : List String :=
  ((arraySort (fun a b => (b.count : Int) - (a.count : Int))
    ((rollup data List.length (fun d => d.country)).map
      (fun kv => (⟨kv.1, kv.2⟩ : CountryCount)))).take 15).map (fun d => d.country)

/-- An element of `countryPollutantData`: a `d3.mean` is a number or `undefined`. -/
structure CountryPollutants where
  country : String
  co_aqi : Option ℚ
  ozone_aqi : Option ℚ
  no2_aqi : Option ℚ
  pm25_aqi : Option ℚ
  deriving DecidableEq

/-- The array `countryPollutantData` of `drawStackedBarChart`. -/
def countryPollutantData (data : List Row) : List CountryPollutants :=
  ((group data (fun d => d.country)).map (fun kv =>
    (⟨kv.1, mean kv.2 (fun d => orZero d.co_aqi), mean kv.2 (fun d => orZero d.ozone_aqi),
      mean kv.2 (fun d => orZero d.no2_aqi), mean kv.2 (fun d => orZero d.pm25_aqi)⟩ :
      CountryPollutants))).filter (fun d => d.country ∈ topCountriesArr data)

/-- One rectangle of a stacked bar: the object `{ key, value, percentage }`. -/
structure PollutantShare where
  key : String
  value : Option ℚ
  percentage : JSNumber
  deriving DecidableEq

/-- The sum `d.co_aqi + d.ozone_aqi + d.no2_aqi + d.pm25_aqi` bound to `total`. -/
def pollutantTotal (d : CountryPollutants) : JSNumber :=
  (((JSNumber.ofOption d.co_aqi).add (JSNumber.ofOption d.ozone_aqi)).add
    (JSNumber.ofOption d.no2_aqi)).add (JSNumber.ofOption d.pm25_aqi)

/-- The expression `(d[pollutant] / total) * 100`. -/
def percentage (value : Option ℚ) (total : JSNumber) : JSNumber :=
  ((JSNumber.ofOption value).div total).mul (.finite 100)

/-- The data function of the stacked bars: for one element of `countryPollutantData`, the
four rectangles in the order of `pollutants`. -/
def pollutantShares (d : CountryPollutants) : List PollutantShare :=
  let total := pollutantTotal d
  [⟨"co_aqi", d.co_aqi, percentage d.co_aqi total⟩,
   ⟨"ozone_aqi", d.ozone_aqi, percentage d.ozone_aqi total⟩,
   ⟨"no2_aqi", d.no2_aqi, percentage d.no2_aqi total⟩,
   ⟨"pm25_aqi", d.pm25_aqi, percentage d.pm25_aqi total⟩]

/-! ## drawHorizontalBarChart: pollutant totals of hazardous cities -/

/-- The array `hazardousRows` of `drawHorizontalBarChart`. -/
def hazardousRows (data : List Row) : List Row :=
  data.filter (fun d => d.aqi_category ≠ "" ∧ toLowerCase d.aqi_category = "hazardous")

/-- A value of `cityMap`, before `total` is assigned. -/
structure CitySums where
  city : String
  co_aqi : ℚ
  ozone_aqi : ℚ
  no2_aqi : ℚ
  pm25_aqi : ℚ
  deriving DecidableEq

/-- The template string bound to `cityKey`. -/
def cityKey (row : Row) : String := row.city ++ " (" ++ row.country ++ ")"

/-- The second `pollutants.forEach` of the loop body, `cityMap[cityKey][p] += +row[p] || 0`
for each of the four pollutants: add the row to an entry. -/
def addRow (e : CitySums) (row : Row) : CitySums :=
  ⟨e.city, jsAdd e.co_aqi (orZero row.co_aqi), jsAdd e.ozone_aqi (orZero row.ozone_aqi),
    jsAdd e.no2_aqi (orZero row.no2_aqi), jsAdd e.pm25_aqi (orZero row.pm25_aqi)⟩

/-- The body of `hazardousRows.forEach`: create the entry of `cityKey` with zeros when
`cityMap` has none, then add the row to it.  No `cityKey` is a property inherited from
`Object.prototype` or an array index, since every `cityKey` ends in `)`. -/
def cityMapStep (cityMap : List (String × CitySums)) (row : Row) : List (String × CitySums) :=
  let key := cityKey row
  let cityMap1 :=
    if (cityMap.lookup key).isNone then cityMap ++ [(key, (⟨key, 0, 0, 0, 0⟩ : CitySums))]
    else cityMap
  cityMap1.map (fun kv => if kv.1 = key then (kv.1, addRow kv.2 row) else kv)

/-- The object `cityMap` after the loop over `hazardousRows`. -/
def cityMap (data : List Row) : List (String × CitySums) :=
  (hazardousRows data).foldl cityMapStep []

/-- An element of `cityData`: the sums with `total` assigned. -/
structure CityTotals where
  city : String
  co_aqi : ℚ
  ozone_aqi : ℚ
  no2_aqi : ℚ
  pm25_aqi : ℚ
  total : ℚ
  deriving DecidableEq

/-- The array `Object.values(cityMap)` after the loop that assigns
`d.total = pollutants.reduce((sum, p) => sum + d[p], 0)`. -/
def cityTotals (data : List Row) : List CityTotals :=
  (cityMap data).map (fun kv =>
    (⟨kv.2.city, kv.2.co_aqi, kv.2.ozone_aqi, kv.2.no2_aqi, kv.2.pm25_aqi,
      jsAdd (jsAdd (jsAdd (jsAdd 0 kv.2.co_aqi) kv.2.ozone_aqi) kv.2.no2_aqi)
        kv.2.pm25_aqi⟩ : CityTotals))

/-- The array `cityData` of `drawHorizontalBarChart` after `sort` and `slice(0, 15)`.  The
comparator `b.total - a.total` is used for its sign only, which is the sign of the exact
difference. -/
def cityData (data : List Row) : List CityTotals :=
  (arraySort (fun a b => b.total - a.total) (cityTotals data)).take 15

/-- What `drawHorizontalBarChart` draws: the text "No Hazardous AQI Data Available for This
Filter" followed by an early return, or the stacked bars of `cityData`. -/
inductive HorizontalBarChart where
  | noData
  | bars (cityData : List CityTotals)
  deriving DecidableEq

/-- The branch `if (cityData.length === 0)` of `drawHorizontalBarChart`. -/
def drawHorizontalBarChart (data : List Row) : HorizontalBarChart :=
  if (cityData data).length = 0 then .noData else .bars (cityData data)

/-! ## drawGroupedBarChart: per-category pollutant means -/

/-- The expression `Array.from(new Set(values))`: the distinct values in insertion order. -/
def newSet (values : List String) : List String :=
  values.foldl (fun set x => if x ∈ set then set else set ++ [x]) []

/-- The method `Array.prototype.sort()` without a comparator, on strings: ascending order,
character by character.  (The engine compares UTF-16 code units, the model code points; the
two orders agree on text without characters beyond U+FFFF.) -/
def sortStrings (l : List String) : List String :=
  l.insertionSort (fun a b => a ≤ b)

/-- The array `aqiCategories` of `drawGroupedBarChart`. -/
def aqiCategories (data : List Row) : List String :=
  sortStrings (newSet (data.map (fun d => d.aqi_category)))

/-- An element of `groupedData`: a `d3.mean` is a number or `undefined`. -/
structure CategoryPollutants where
  category : String
  co_aqi : Option ℚ
  ozone_aqi : Option ℚ
  no2_aqi : Option ℚ
  pm25_aqi : Option ℚ
  deriving DecidableEq

/-- The array `groupedData` of `drawGroupedBarChart`. -/
def groupedData (data : List Row) : List CategoryPollutants :=
  (aqiCategories data).map (fun category =>
    let filtered := data.filter (fun d => d.aqi_category = category)
    (⟨category, mean filtered (fun d => orZero d.co_aqi),
      mean filtered (fun d => orZero d.ozone_aqi), mean filtered (fun d => orZero d.no2_aqi),
      mean filtered (fun d => orZero d.pm25_aqi)⟩ : CategoryPollutants))

/-! ## Selection state and its two event handlers -/

/-- The two values every redraw reads: the value of the `#countrySelect` dropdown, which
the handlers pass to `updateDashboard`, and the global `selectedCategory`. -/
structure SelectionState where
  selectedCountry : String
  selectedCategory : String
  deriving DecidableEq

/-- The state of the first draw: `updateDashboard("all")` with `selectedCategory = "all"`. -/
def initialState : SelectionState := ⟨"all", "all"⟩

/-- The `change` handler of `#countrySelect`: the dropdown holds the chosen value,
`selectedCategory` is not touched. -/
def countryChanged (s : SelectionState) (value : String) : SelectionState :=
  ⟨value, s.selectedCategory⟩

/-- The `click` handler of the pie slice whose datum has the label `category`: the toggle on
`selectedCategory`; the dropdown is read, not written. -/
def sliceClicked (s : SelectionState) (category : String) : SelectionState :=
  ⟨s.selectedCountry, if s.selectedCategory = category then "all" else category⟩

/-- The array `filteredData` that `updateDashboard` computes in state `s`. -/
def filteredData (allData : List Row) (s : SelectionState) : List Row :=
  updateDashboard allData s.selectedCountry s.selectedCategory

/-- The labels of the slices drawn in state `s`: the slices a click can hit. -/
def displayedCategories (allData : List Row) (s : SelectionState) : List String :=
  (categoryCounts (filteredData allData s)).map (fun e => e.category)

/-- The states the dashboard reaches from the first draw: the dropdown offers "all" and the
countries of `allData`, a click hits a slice that is drawn. -/
inductive Reachable (allData : List Row) : SelectionState → Prop where
  | initial : Reachable allData initialState
  | country (s : SelectionState) (value : String) (hs : Reachable allData s)
      (hv : value = "all" ∨ value ∈ allData.map (fun d => d.country)) :
      Reachable allData (countryChanged s value)
  | click (s : SelectionState) (category : String) (hs : Reachable allData s)
      (hc : category ∈ displayedCategories allData s) :
      Reachable allData (sliceClicked s category)

/-! ## Sample rows -/

/-- A row with the given country, city and category and no readable pollutant cell. -/
def sampleRow (country city category : String) : Row :=
  ⟨country, city, category, none, none, none, none⟩

/-! ## Declarative vocabulary of the specification -/

/-- The distinct elements of a list, each at the place of its first appearance. -/
def firstOccurrences : List String → List String
  | [] => []
  | k :: ks => k :: (firstOccurrences ks).filter (fun x => x ≠ k)

/-- The list the Top-N ranking starts from: one pair (country, number of rows of that
country) per distinct country, in order of first appearance. -/
def countryTally (data : List Row) : List CountryCount :=
  (firstOccurrences (data.map (fun d => d.country))).map
    (fun k => (⟨k, data.countP (fun d => d.country = k)⟩ : CountryCount))

/-- The six values of `aqi_category` that the script names, as the string literals of
`drawHeatmap` spell them, in the order of severity. -/
def categoryNames : List String :=
  ["good", "moderate", "unhealthy for sensitive groups", "unhealthy", "very unhealthy",
    "hazardous"]

/-- One entry (label, number of rows) per distinct `aqi_category` string, in order of first
appearance: the label is the string with every word capitalized, the number counts the rows
that carry exactly this string. -/
def categoryTally (data : List Row) : List CategoryCount :=
  (firstOccurrences (data.map (fun d => d.aqi_category))).map
    (fun k => (⟨capitalizeWords k, data.countP (fun d => d.aqi_category = k)⟩ : CategoryCount))

/-- The sum of the six proportions of one heatmap row, added from left to right. -/
def proportionSum (e : CountryProportions) : JSNumber :=
  ((((e.good.add e.moderate).add e.unhealthy_sensitive).add e.unhealthy).add
    e.very_unhealthy).add e.hazardous

/-- The quotient count_in_category / total_count_for_country of the heatmap
specification. -/
def categoryShare (data : List Row) (country name : String) : ℚ :=
  (data.countP (fun r => r.country = country ∧ r.aqi_category = name) : ℚ) /
    (data.countP (fun r => r.country = country) : ℚ)

/-- The entry that the loop of `drawHorizontalBarChart` holds under the key `k` once it has
met the rows `rows` of that key: the running sums, started at 0. -/
def runningSums (k : String) (rows : List Row) : CitySums :=
  rows.foldl addRow ⟨k, 0, 0, 0, 0⟩

/-- An entry of `cityMap` with `total` assigned, as `cityTotals` lists it. -/
def assignTotal (e : CitySums) : CityTotals :=
  ⟨e.city, e.co_aqi, e.ozone_aqi, e.no2_aqi, e.pm25_aqi,
    jsAdd (jsAdd (jsAdd (jsAdd 0 e.co_aqi) e.ozone_aqi) e.no2_aqi) e.pm25_aqi⟩

/-- Each of the four measurements of the row, an unreadable cell taken as 0, is a
non-negative whole number. -/
def wholeCells (r : Row) : Prop :=
  (∃ n : ℕ, orZero r.co_aqi = n) ∧ (∃ n : ℕ, orZero r.ozone_aqi = n) ∧
    (∃ n : ℕ, orZero r.no2_aqi = n) ∧ (∃ n : ℕ, orZero r.pm25_aqi = n)

/-- The four measurements of one row added in double precision, in the order of
`pollutants`, started at 0. -/
def rowTotalDouble (r : Row) : ℚ :=
  jsAdd (jsAdd (jsAdd (jsAdd 0 (orZero r.co_aqi)) (orZero r.ozone_aqi)) (orZero r.no2_aqi))
    (orZero r.pm25_aqi)

/-- Two hazardous rows of the city "a" of country "X" with the `co_aqi` cells `a1`, `a2`, the
`ozone_aqi` cells `b1`, `b2` and the other two cells unreadable. -/
def twoHazardousRows (a1 b1 a2 b2 : ℚ) : List Row :=
  [⟨"X", "a", "hazardous", some a1, some b1, none, none⟩,
    ⟨"X", "a", "hazardous", some a2, some b2, none, none⟩]

/-- The double that the cell text "0.1" reads as. -/
def cell01 : ℚ := 3602879701896397 / 36028797018963968

/-- The double that the cell text "0.2" reads as. -/
def cell02 : ℚ := 3602879701896397 / 18014398509481984

/-- The double that the cell text "0.3" reads as. -/
def cell03 : ℚ := 5404319552844595 / 18014398509481984

/-- Two hazardous rows of one city with the `co_aqi` cells "0.1", "0.2" and the `ozone_aqi`
cells "0.1", "0.3". -/
def decimalRows : List Row := twoHazardousRows cell01 cell01 cell02 cell03

/-- The four measurements of one row added up, each unreadable cell taken as 0. -/
def rowTotal (r : Row) : ℚ :=
  orZero r.co_aqi + orZero r.ozone_aqi + orZero r.no2_aqi + orZero r.pm25_aqi

/-- Two rows are accumulated into the same group of `cityMap`: one entry of `cityMap` has
the key that the loop computes for the one row and for the other. -/
def sameGroup (data : List Row) (r1 r2 : Row) : Prop :=
  ∃ kv ∈ cityMap data, kv.1 = cityKey r1 ∧ kv.1 = cityKey r2

/-- The text of a cell contains no opening bracket. -/
def noOpeningBracket (s : String) : Prop := '(' ∉ s.data

/-! ## Lemmas: first occurrences -/

theorem mem_firstOccurrences (ks : List String) (x : String) :
    x ∈ firstOccurrences ks ↔ x ∈ ks := by
  induction ks with
  | nil => simp [firstOccurrences]
  | cons k ks ih =>
    by_cases h : x = k
    · simp [firstOccurrences, h]
    · simp [firstOccurrences, h, ih]

theorem nodup_firstOccurrences (ks : List String) : (firstOccurrences ks).Nodup := by
  induction ks with
  | nil => simp [firstOccurrences]
  | cons k ks ih =>
    simp only [firstOccurrences, List.nodup_cons]
    exact ⟨by simp [List.mem_filter], ih.filter _⟩

theorem firstOccurrences_append_singleton (ks : List String) (k : String) :
    firstOccurrences (ks ++ [k]) =
      if k ∈ ks then firstOccurrences ks else firstOccurrences ks ++ [k] := by
  induction ks with
  | nil => simp [firstOccurrences]
  | cons k0 ks ih =>
    by_cases hk : k ∈ ks
    · simp [firstOccurrences, ih, hk]
    · by_cases h0 : k = k0
      · subst h0
        simp [firstOccurrences, ih, hk, List.filter_append]
      · simp [firstOccurrences, ih, hk, h0, List.filter_append]

/-! ## Lemmas: d3.group -/

theorem groupPush_map {α : Type} (k : String) (d : α) (f : String → List α) (L : List String)
    (hL : L.Nodup) :
    groupPush k d (L.map (fun x => (x, f x))) =
      if k ∈ L then L.map (fun x => (x, if x = k then f x ++ [d] else f x))
      else L.map (fun x => (x, f x)) ++ [(k, [d])] := by
  induction L with
  | nil => simp [groupPush]
  | cons k0 L ih =>
    obtain ⟨h0, hL'⟩ := List.nodup_cons.mp hL
    by_cases hk : k0 = k
    · subst hk
      have : ∀ x ∈ L, (x, f x) = (x, if x = k0 then f x ++ [d] else f x) := by
        intro x hx
        have : x ≠ k0 := fun e => h0 (e ▸ hx)
        simp [this]
      simp [groupPush, List.map_congr_left this]
    · have hk' : ¬ k = k0 := fun e => hk e.symm
      simp only [List.map_cons, groupPush, hk, if_false, ih hL', List.mem_cons, hk', false_or]
      split <;> simp

theorem group_append_singleton {α : Type} (data : List α) (key : α → String) (d : α) :
    group (data ++ [d]) key = groupPush (key d) d (group data key) := by
  simp [group, List.foldl_append]

/-- The `Map` of `d3.group` lists the keys in order of first appearance and stores under each
key the rows with that key, in their original order. -/
theorem group_eq {α : Type} (data : List α) (key : α → String) :
    group data key =
      (firstOccurrences (data.map key)).map
        (fun k => (k, data.filter (fun d => key d = k))) := by
  induction data using List.reverseRecOn with
  | nil => simp [group, firstOccurrences]
  | append_singleton xs x ih =>
    rw [group_append_singleton, ih, groupPush_map _ _ _ _ (nodup_firstOccurrences _)]
    simp only [List.map_append, List.map_cons, List.map_nil,
      firstOccurrences_append_singleton, mem_firstOccurrences]
    by_cases hx : key x ∈ xs.map key
    · simp only [hx, if_true]
      apply List.map_congr_left
      intro k _
      by_cases hk : k = key x
      · simp [hk, List.filter_append]
      · have hk' : ¬ key x = k := fun e => hk e.symm
        simp [hk, hk', List.filter_append]
    · simp only [hx, if_false, List.map_append, List.map_cons, List.map_nil]
      congr 1
      · apply List.map_congr_left
        intro k hk
        have hk' : ¬ key x = k := by
          intro e
          rw [mem_firstOccurrences] at hk
          exact hx (e ▸ hk)
        simp [List.filter_append, hk']
      · have : xs.filter (fun d => decide (key d = key x)) = [] := by
          rw [List.filter_eq_nil_iff]
          intro a ha
          simp only [decide_eq_true_eq]
          intro e
          exact hx (List.mem_map.mpr ⟨a, ha, e⟩)
        simp [List.filter_append, this]

theorem length_firstOccurrences (ks : List String) :
    (firstOccurrences ks).length = ks.toFinset.card := by
  rw [← List.toFinset_card_of_nodup (nodup_firstOccurrences ks)]
  congr 1
  ext x
  simp [mem_firstOccurrences]

theorem sum_firstOccurrences_count (ks : List String) :
    ((firstOccurrences ks).map (fun k => ks.count k)).sum = ks.length := by
  rw [← List.sum_toFinset _ (nodup_firstOccurrences ks)]
  have : (firstOccurrences ks).toFinset = ks.toFinset := by
    ext x
    simp [mem_firstOccurrences]
  rw [this]
  exact List.sum_toFinset_count_eq_length ks

theorem length_filter_key {α : Type} (data : List α) (key : α → String) (k : String) :
    (data.filter (fun d => key d = k)).length = (data.map key).count k := by
  induction data with
  | nil => simp
  | cons x xs ih =>
    by_cases h : key x = k
    · simp [List.filter_cons, h, ih]
    · simp [List.filter_cons, h, ih, List.count_cons]

/-- The group sizes of `d3.rollup(data, v => v.length, key)` add up to `data.length`. -/
theorem rollup_length_sum (data : List Row) (key : Row → String) :
    ((rollup data List.length key).map (fun kv => kv.2)).sum = data.length := by
  simp only [rollup, group_eq, List.map_map]
  have : ((fun kv : String × Nat => kv.2) ∘ (fun kv : String × List Row => (kv.1, kv.2.length)) ∘
      fun k => (k, data.filter (fun d => key d = k))) = fun k => (data.map key).count k := by
    funext k
    simp [length_filter_key]
  rw [this, sum_firstOccurrences_count, List.length_map]

/-! ## Lemmas: Array.prototype.sort -/

section SortLemmas

variable {α N : Type} [Zero N] [LE N] [DecidableRel (fun (x y : N) => x ≤ y)]

theorem arraySort_perm (compare : α → α → N) (l : List α) :
    (arraySort compare l).Perm l :=
  List.perm_insertionSort _ l

/-- A comparator that is total and transitive yields a sorted array. -/
theorem arraySort_pairwise (compare : α → α → N)
    (htotal : ∀ a b, compare a b ≤ 0 ∨ compare b a ≤ 0)
    (htrans : ∀ a b c, compare a b ≤ 0 → compare b c ≤ 0 → compare a c ≤ 0) (l : List α) :
    (arraySort compare l).Pairwise (fun a b => compare a b ≤ 0) := by
  haveI : IsTotal α (fun a b => compare a b ≤ 0) := ⟨htotal⟩
  haveI : IsTrans α (fun a b => compare a b ≤ 0) := ⟨htrans⟩
  exact List.sorted_insertionSort _ l

/-- Stability: elements that the comparator does not separate keep their relative order. -/
theorem arraySort_filter (compare : α → α → N) (p : α → Bool)
    (hp : ∀ a b, p a = true → p b = true → compare a b ≤ 0) (l : List α) :
    (arraySort compare l).filter p = l.filter p := by
  have hpw : (l.filter p).Pairwise (fun a b => compare a b ≤ 0) := by
    have h0 : (l.filter p).Pairwise (fun _ _ => True) := List.pairwise_of_forall (fun _ _ => trivial)
    refine h0.imp_of_mem ?_
    intro a b ha hb _
    exact hp a b (List.mem_filter.mp ha).2 (List.mem_filter.mp hb).2
  have hsub : List.Sublist (l.filter p) (arraySort compare l) :=
    List.sublist_insertionSort hpw (List.filter_sublist l)
  have hsub2 : List.Sublist (l.filter p) ((arraySort compare l).filter p) := by
    have := hsub.filter p
    simpa [List.filter_filter] using this
  have hlen : ((arraySort compare l).filter p).length = (l.filter p).length :=
    ((arraySort_perm compare l).filter p).length_eq
  exact (hsub2.eq_of_length hlen.symm).symm

theorem take_drop_pairwise (r : α → α → Prop) (l : List α) (n : Nat) (h : l.Pairwise r) :
    ∀ a ∈ l.take n, ∀ b ∈ l.drop n, r a b := by
  have h2 : (l.take n ++ l.drop n).Pairwise r := by rwa [List.take_append_drop]
  exact fun a ha b hb => (List.pairwise_append.mp h2).2.2 a ha b hb

end SortLemmas

/-! ## Lemmas: lower-casing -/

theorem toLowerCase_eq_empty (s : String) : toLowerCase s = "" ↔ s = "" := by
  constructor
  · intro h
    have h1 : (toLowerCase s).data = [] := by rw [h]
    have h2 : s.data = [] := by simpa [toLowerCase] using h1
    exact String.ext h2
  · intro h
    subst h
    rfl

theorem toLower_toUpper (c : Char) : c.toUpper.toLower = c.toLower := by
  by_cases h : c.toNat ≥ 97 ∧ c.toNat ≤ 122
  · obtain ⟨h1, h2⟩ := h
    have hc : c = Char.ofNat c.toNat := (Char.ofNat_toNat c).symm
    generalize c.toNat = n at *
    subst hc
    interval_cases n <;> rfl
  · simp [Char.toUpper, h]

theorem map_toLower_capitalizeFrom (prevWord : Bool) (cs : List Char) :
    (capitalizeFrom prevWord cs).map Char.toLower = cs.map Char.toLower := by
  induction cs generalizing prevWord with
  | nil => rfl
  | cons c cs ih =>
    simp only [capitalizeFrom, List.map_cons, ih]
    split <;> simp [toLower_toUpper]

/-- Capitalizing the words of a string does not change its lower-case form. -/
theorem toLowerCase_capitalizeWords (str : String) :
    toLowerCase (capitalizeWords str) = toLowerCase str := by
  simp [toLowerCase, capitalizeWords, map_toLower_capitalizeFrom]

/-! ## Lemmas: the country ranking -/

/-- The array that `drawBarChart` sorts is the tally of the specification. -/
theorem rollup_country_eq (data : List Row) :
    (rollup data List.length (fun d => d.country)).map
      (fun kv => (⟨kv.1, kv.2⟩ : CountryCount)) = countryTally data := by
  simp only [rollup, group_eq, List.map_map, countryTally]
  apply List.map_congr_left
  intro k _
  simp [List.countP_eq_length_filter]

/-! ## Filter Engine -/

/-- C1, as the code has it: the filtered subset is the subsequence, in original order, of the
rows `r` with (activeCountry = "all" or `r.country` = activeCountry) and (activeCategory =
"all" or (`r.aqi_category` is not the empty string and lowercase(`r.aqi_category`) =
lowercase(activeCategory))); for every activeCategory other than the empty string this is
the condition lowercase(`r.aqi_category`) = lowercase(activeCategory) alone. -/
theorem updateDashboard_eq_filter (allData : List Row) (activeCountry activeCategory : String) :
    updateDashboard allData activeCountry activeCategory =
        allData.filter (fun r =>
          (activeCountry = "all" ∨ r.country = activeCountry) ∧
          (activeCategory = "all" ∨
            (r.aqi_category ≠ "" ∧ toLowerCase r.aqi_category = toLowerCase activeCategory))) ∧
      (activeCategory ≠ "" →
        updateDashboard allData activeCountry activeCategory =
          allData.filter (fun r =>
            (activeCountry = "all" ∨ r.country = activeCountry) ∧
            (activeCategory = "all" ∨
              toLowerCase r.aqi_category = toLowerCase activeCategory))) := by
  have key : updateDashboard allData activeCountry activeCategory =
      allData.filter (fun r =>
        (activeCountry = "all" ∨ r.country = activeCountry) ∧
        (activeCategory = "all" ∨
          (r.aqi_category ≠ "" ∧ toLowerCase r.aqi_category = toLowerCase activeCategory))) := by
    unfold updateDashboard
    by_cases hc : activeCountry = "all" <;> by_cases hk : activeCategory = "all" <;>
      simp [hc, hk, List.filter_filter, Bool.and_comm]
  refine ⟨key, fun hne => ?_⟩
  rw [key]
  apply List.filter_congr
  intro r _
  have : toLowerCase r.aqi_category = toLowerCase activeCategory → r.aqi_category ≠ "" := by
    intro h he
    rw [he] at h
    exact hne ((toLowerCase_eq_empty activeCategory).mp h.symm)
  by_cases h1 : toLowerCase r.aqi_category = toLowerCase activeCategory
  · simp [h1, this h1]
  · simp [h1]

/-- C1, witness: the country "X" and the category "Good" on three rows. -/
theorem updateDashboard_eq_filter_witness :
    updateDashboard
        [sampleRow "X" "a" "good", sampleRow "Y" "b" "good", sampleRow "X" "c" "moderate"]
        "X" "Good" =
      [sampleRow "X" "a" "good", sampleRow "Y" "b" "good", sampleRow "X" "c" "moderate"].filter
        (fun r => ("X" = "all" ∨ r.country = "X") ∧
          ("Good" = "all" ∨ toLowerCase r.aqi_category = toLowerCase "Good")) :=
  (updateDashboard_eq_filter _ "X" "Good").2 (by decide)

/-- C1 as stated fails: with activeCategory the empty string, a row whose `aqi_category` is
the empty string satisfies the stated condition and is not kept. -/
theorem updateDashboard_empty_category :
    updateDashboard [sampleRow "X" "a" ""] "all" "" ≠
      [sampleRow "X" "a" ""].filter (fun r =>
        ("all" = "all" ∨ r.country = "all") ∧
        ("" = "all" ∨ toLowerCase r.aqi_category = toLowerCase "")) := by
  decide

/-! ## Top-N Count Aggregator -/

theorem countryCounts_eq (data : List Row) :
    countryCounts data =
      (arraySort (fun a b : CountryCount => (b.count : Int) - (a.count : Int))
        (countryTally data)).take 15 := by
  rw [countryCounts, rollup_country_eq]

theorem countCompare_total (a b : CountryCount) :
    (b.count : Int) - (a.count : Int) ≤ 0 ∨ (a.count : Int) - (b.count : Int) ≤ 0 := by
  omega

theorem countCompare_trans (a b c : CountryCount) (h1 : (b.count : Int) - (a.count : Int) ≤ 0)
    (h2 : (c.count : Int) - (b.count : Int) ≤ 0) : (c.count : Int) - (a.count : Int) ≤ 0 := by
  omega

theorem ranked_pairwise (l : List CountryCount) :
    (arraySort (fun a b : CountryCount => (b.count : Int) - (a.count : Int)) l).Pairwise
      (fun a b => b.count ≤ a.count) := by
  refine (arraySort_pairwise _ countCompare_total countCompare_trans l).imp ?_
  intro a b h
  omega

/-- C2: `countryCounts` is the first 15 entries of a list `ranked` that rearranges the pairs
(country, number of rows of that country) taken in order of first appearance, has
non-increasing counts and keeps, among the pairs of any one count, the first-appearance
order; no entry left out has a larger count than an entry kept. -/
theorem countryCounts_top15 (data : List Row) :
    ∃ ranked : List CountryCount,
      countryCounts data = ranked.take 15 ∧
      ranked.Perm (countryTally data) ∧
      ranked.Pairwise (fun a b => b.count ≤ a.count) ∧
      (∀ n : Nat, ranked.filter (fun a => a.count = n) =
        (countryTally data).filter (fun a => a.count = n)) ∧
      (∀ a ∈ ranked.take 15, ∀ b ∈ ranked.drop 15, b.count ≤ a.count) := by
  refine ⟨arraySort (fun a b : CountryCount => (b.count : Int) - (a.count : Int))
    (countryTally data), countryCounts_eq data, arraySort_perm _ _, ranked_pairwise _, ?_, ?_⟩
  · intro n
    apply arraySort_filter
    intro a b ha hb
    simp only [decide_eq_true_eq] at ha hb
    omega
  · exact take_drop_pairwise _ _ 15 (ranked_pairwise _)

/-- C3: `countryCounts` has exactly min(15, number of distinct countries) entries, hence at
most 15, and its counts are non-increasing from the first entry to the last. -/
theorem countryCounts_length_sorted (data : List Row) :
    (countryCounts data).length = min 15 (data.map (fun d => d.country)).toFinset.card ∧
      (countryCounts data).length ≤ 15 ∧
      (countryCounts data).Pairwise (fun a b => b.count ≤ a.count) := by
  have hlen : (countryCounts data).length =
      min 15 (data.map (fun d => d.country)).toFinset.card := by
    rw [countryCounts_eq, List.length_take, (arraySort_perm _ _).length_eq, countryTally,
      List.length_map, length_firstOccurrences]
  refine ⟨hlen, ?_, ?_⟩
  · rw [hlen]
    exact Nat.min_le_left _ _
  · rw [countryCounts_eq]
    exact (ranked_pairwise _).sublist (List.take_sublist _ _)

/-! ## Category Distribution Aggregator -/

theorem categoryCounts_perm (data : List Row) :
    (categoryCounts data).Perm
      ((rollup data List.length (fun d => d.aqi_category)).map
        (fun kv => (⟨capitalizeWords kv.1, kv.2⟩ : CategoryCount))) :=
  arraySort_perm _ _

theorem categoryCounts_sum_eq_length (data : List Row) :
    ((categoryCounts data).map (fun e => e.count)).sum = data.length := by
  rw [((categoryCounts_perm data).map _).sum_eq, List.map_map]
  exact rollup_length_sum data _

/-- C4: for every country filter and category filter, the counts of the category
distribution of the filtered subset add up to the number of rows of the filtered subset. -/
theorem categoryCounts_sum (allData : List Row) (activeCountry activeCategory : String) :
    ((categoryCounts (updateDashboard allData activeCountry activeCategory)).map
      (fun e => e.count)).sum =
      (updateDashboard allData activeCountry activeCategory).length :=
  categoryCounts_sum_eq_length _

theorem rollup_category_eq (data : List Row) :
    (rollup data List.length (fun d => d.aqi_category)).map
      (fun kv => (⟨capitalizeWords kv.1, kv.2⟩ : CategoryCount)) = categoryTally data := by
  simp only [rollup, group_eq, List.map_map, categoryTally]
  apply List.map_congr_left
  intro k _
  simp [List.countP_eq_length_filter]

theorem categoryCounts_eq (data : List Row) :
    categoryCounts data =
      arraySort (fun a b : CategoryCount =>
        indexOf predefinedOrder a.category - indexOf predefinedOrder b.category)
        (categoryTally data) := by
  rw [categoryCounts, rollup_category_eq]

theorem categoryCounts_pairwise (data : List Row) :
    (categoryCounts data).Pairwise (fun a b =>
      indexOf predefinedOrder a.category - indexOf predefinedOrder b.category ≤ 0) := by
  rw [categoryCounts_eq]
  apply arraySort_pairwise
  · intro a b
    omega
  · intro a b c h1 h2
    omega

theorem categoryNames_index_injective :
    ∀ k1 ∈ categoryNames, ∀ k2 ∈ categoryNames,
      indexOf predefinedOrder (capitalizeWords k1) = indexOf predefinedOrder (capitalizeWords k2) →
        k1 = k2 := by
  decide

theorem categoryNames_pairwise :
    categoryNames.Pairwise (fun a b =>
      indexOf predefinedOrder (capitalizeWords a) -
        indexOf predefinedOrder (capitalizeWords b) ≤ 0) := by
  decide

/-- The distribution on lower-case data: when every row's `aqi_category` is exactly one of
the six lower-case category values, the category distribution lists the categories present in the data in the canonical severity order, each
under its label with every word capitalized and with the number of its rows; so the labels
form a sublist of Good, Moderate, Unhealthy For Sensitive Groups, Unhealthy, Very Unhealthy,
Hazardous.  For the rows [(X, good, co_aqi 1), (X, hazardous, co_aqi 3)] the result is
[(Good, 1), (Hazardous, 1)]. -/
theorem categoryCounts_canonical (data : List Row)
    (h : ∀ r ∈ data, r.aqi_category ∈ categoryNames) :
    categoryCounts data =
        (categoryNames.filter (fun k => k ∈ data.map (fun d => d.aqi_category))).map
          (fun k => (⟨capitalizeWords k, data.countP (fun d => d.aqi_category = k)⟩ :
            CategoryCount)) ∧
      List.Sublist ((categoryCounts data).map (fun e => e.category)) predefinedOrder ∧
      categoryCounts
          [⟨"X", "", "good", some 1, none, none, none⟩,
            ⟨"X", "", "hazardous", some 3, none, none, none⟩] =
        [⟨"Good", 1⟩, ⟨"Hazardous", 1⟩] := by
  have hnodup : categoryNames.Nodup := by decide
  have heq : categoryCounts data =
      (categoryNames.filter (fun k => k ∈ data.map (fun d => d.aqi_category))).map
        (fun k => (⟨capitalizeWords k, data.countP (fun d => d.aqi_category = k)⟩ :
          CategoryCount)) := by
    refine List.Perm.eq_of_sorted ?_ (categoryCounts_pairwise data) ?_ ?_
    · intro a b ha hb hab hba
      rw [categoryCounts_eq] at ha
      have ha' := (arraySort_perm _ _).subset ha
      simp only [categoryTally, List.mem_map, mem_firstOccurrences] at ha'
      simp only [List.mem_map, List.mem_filter] at hb
      obtain ⟨k1, ⟨r, hr, rfl⟩, rfl⟩ := ha'
      obtain ⟨k2, ⟨hk2, _⟩, rfl⟩ := hb
      have hidx : indexOf predefinedOrder (capitalizeWords r.aqi_category) =
          indexOf predefinedOrder (capitalizeWords k2) := by
        simp only at hab hba
        omega
      have := categoryNames_index_injective _ (h r hr) _ hk2 hidx
      rw [this]
    · rw [List.pairwise_map]
      exact categoryNames_pairwise.sublist (List.filter_sublist _)
    · rw [categoryCounts_eq]
      refine (arraySort_perm _ _).trans ?_
      rw [categoryTally]
      apply List.Perm.map
      rw [List.perm_ext_iff_of_nodup (nodup_firstOccurrences _) (hnodup.filter _)]
      intro k
      simp only [mem_firstOccurrences, List.mem_filter, decide_eq_true_eq]
      constructor
      · intro hk
        obtain ⟨r, hr, rfl⟩ := List.mem_map.mp hk
        exact ⟨h r hr, hk⟩
      · exact fun hk => hk.2
  refine ⟨heq, ?_, by decide⟩
  rw [heq, List.map_map]
  have : ((fun e : CategoryCount => e.category) ∘ fun k =>
      (⟨capitalizeWords k, data.countP (fun d => d.aqi_category = k)⟩ : CategoryCount)) =
      capitalizeWords := rfl
  rw [this]
  have hp : categoryNames.map capitalizeWords = predefinedOrder := by decide
  rw [← hp]
  exact (List.filter_sublist _).map _

/-- An instance of the distribution on lower-case data: three rows over two of the six
values. -/
theorem categoryCounts_canonical_witness :
    categoryCounts
        [sampleRow "X" "a" "hazardous", sampleRow "Y" "b" "good", sampleRow "X" "c" "hazardous"] =
      (categoryNames.filter (fun k => k ∈
        [sampleRow "X" "a" "hazardous", sampleRow "Y" "b" "good",
          sampleRow "X" "c" "hazardous"].map (fun d => d.aqi_category))).map
        (fun k => (⟨capitalizeWords k,
          [sampleRow "X" "a" "hazardous", sampleRow "Y" "b" "good",
            sampleRow "X" "c" "hazardous"].countP (fun d => d.aqi_category = k)⟩ :
          CategoryCount)) :=
  (categoryCounts_canonical _ (by decide)).1

/-- The grouping on the code: the distribution groups by the exact `aqi_category` string.  It
is a rearrangement of one entry per distinct string, labelled with the capitalized string and
counting the rows that carry exactly this string.  When no two values of the input differ
only in letter case, no two entries carry the same label and each entry counts the rows whose
lower-cased category is the lower-cased label. -/
theorem categoryCounts_exact_groups (data : List Row) :
    (categoryCounts data).Perm (categoryTally data) ∧
      ((∀ r1 ∈ data, ∀ r2 ∈ data,
          toLowerCase r1.aqi_category = toLowerCase r2.aqi_category →
            r1.aqi_category = r2.aqi_category) →
        ((categoryCounts data).map (fun e => e.category)).Nodup ∧
        ∀ e ∈ categoryCounts data,
          e.count = data.countP (fun r => toLowerCase r.aqi_category = toLowerCase e.category)) := by
  have hperm : (categoryCounts data).Perm (categoryTally data) := by
    rw [categoryCounts_eq]
    exact arraySort_perm _ _
  refine ⟨hperm, fun hcase => ⟨?_, ?_⟩⟩
  · rw [(hperm.map _).nodup_iff, categoryTally, List.map_map]
    refine List.Nodup.map_on ?_ (nodup_firstOccurrences _)
    intro k1 h1 k2 h2 hk
    rw [mem_firstOccurrences] at h1 h2
    obtain ⟨r1, hr1, rfl⟩ := List.mem_map.mp h1
    obtain ⟨r2, hr2, rfl⟩ := List.mem_map.mp h2
    apply hcase r1 hr1 r2 hr2
    have := congrArg toLowerCase (show capitalizeWords r1.aqi_category =
      capitalizeWords r2.aqi_category from hk)
    simpa [toLowerCase_capitalizeWords] using this
  · intro e he
    have he' := hperm.subset he
    simp only [categoryTally, List.mem_map, mem_firstOccurrences] at he'
    obtain ⟨k, ⟨r0, hr0, rfl⟩, rfl⟩ := he'
    simp only [toLowerCase_capitalizeWords]
    apply List.countP_congr
    intro r hr
    simp only [decide_eq_true_eq]
    constructor
    · intro h
      rw [h]
    · intro h
      exact hcase r hr r0 hr0 h

/-- An instance of the grouping: two rows "good" and one row "hazardous". -/
theorem categoryCounts_exact_groups_witness :
    ((categoryCounts
        [sampleRow "X" "a" "good", sampleRow "Y" "b" "hazardous", sampleRow "X" "c" "good"]).map
        (fun e => e.category)).Nodup ∧
      ∀ e ∈ categoryCounts
          [sampleRow "X" "a" "good", sampleRow "Y" "b" "hazardous", sampleRow "X" "c" "good"],
        e.count =
          [sampleRow "X" "a" "good", sampleRow "Y" "b" "hazardous",
            sampleRow "X" "c" "good"].countP
            (fun r => toLowerCase r.aqi_category = toLowerCase e.category) :=
  (categoryCounts_exact_groups _).2 (by decide)

/-- C6, evaluated on the code: the rows "good" and "Good" differ only in letter case and are
counted in two entries, both labelled "Good", each with count 1, so two entries carry the
same label; the filter that a click on either slice feeds keeps both rows. -/
theorem categoryCounts_case_split :
    toLowerCase "good" = toLowerCase "Good" ∧
      categoryCounts [sampleRow "X" "a" "good", sampleRow "X" "b" "Good"] =
        [⟨"Good", 1⟩, ⟨"Good", 1⟩] ∧
      ¬ ((categoryCounts [sampleRow "X" "a" "good", sampleRow "X" "b" "Good"]).map
        (fun e => e.category)).Nodup ∧
      updateDashboard [sampleRow "X" "a" "good", sampleRow "X" "b" "Good"] "all" "Good" =
        [sampleRow "X" "a" "good", sampleRow "X" "b" "Good"] := by
  decide

/-- C5, evaluated on the code: the rows "good" and "HAZARDOUS" carry two of the six
categories of the case-insensitive closed set; the distribution lists the label "HAZARDOUS",
which is not the canonical label "Hazardous", and lists it before "Good", against the
canonical severity order, because `indexOf` finds no "HAZARDOUS" in `predefinedOrder`. -/
theorem categoryCounts_upper_case :
    (∀ r ∈ [sampleRow "X" "a" "good", sampleRow "X" "b" "HAZARDOUS"],
        toLowerCase r.aqi_category ∈ categoryNames) ∧
      categoryCounts [sampleRow "X" "a" "good", sampleRow "X" "b" "HAZARDOUS"] =
        [⟨"HAZARDOUS", 1⟩, ⟨"Good", 1⟩] ∧
      indexOf predefinedOrder "HAZARDOUS" = -1 ∧
      "HAZARDOUS" ∉ predefinedOrder := by
  decide

/-- The distribution on every spelling that capitalizes to a canonical label (lower case,
title case): when the capitalized `aqi_category` of every row is one of the six labels of
`predefinedOrder`, every label of the distribution is one of the six and the labels are
listed in the canonical order. -/
theorem categoryCounts_ordered (data : List Row)
    (h : ∀ r ∈ data, capitalizeWords r.aqi_category ∈ predefinedOrder) :
    (∀ e ∈ categoryCounts data, e.category ∈ predefinedOrder) ∧
      (categoryCounts data).Pairwise (fun a b =>
        indexOf predefinedOrder a.category ≤ indexOf predefinedOrder b.category) := by
  constructor
  · intro e he
    have he' := (categoryCounts_perm data).subset he
    rw [rollup_category_eq] at he'
    simp only [categoryTally, List.mem_map, mem_firstOccurrences] at he'
    obtain ⟨k, ⟨r, hr, rfl⟩, rfl⟩ := he'
    exact h r hr
  · refine (categoryCounts_pairwise data).imp ?_
    intro a b hab
    omega

/-- An instance of the canonical order: title-case and lower-case spellings together. -/
theorem categoryCounts_ordered_witness :
    (categoryCounts [sampleRow "X" "a" "Hazardous", sampleRow "Y" "b" "good",
      sampleRow "X" "c" "Unhealthy for Sensitive Groups"]).Pairwise (fun a b =>
        indexOf predefinedOrder a.category ≤ indexOf predefinedOrder b.category) :=
  (categoryCounts_ordered _ (by decide)).2

/-! ## Country×Category Proportion Aggregator -/

theorem group_mem {α : Type} (data : List α) (key : α → String) (kv : String × List α)
    (h : kv ∈ group data key) :
    kv.2 = data.filter (fun d => key d = kv.1) ∧ kv.2 ≠ [] ∧ kv.1 ∈ data.map key := by
  rw [group_eq] at h
  obtain ⟨k, hk, rfl⟩ := List.mem_map.mp h
  rw [mem_firstOccurrences] at hk
  refine ⟨rfl, ?_, hk⟩
  obtain ⟨d, hd, hdk⟩ := List.mem_map.mp hk
  intro he
  have : d ∈ data.filter (fun d => key d = k) := by simp [List.mem_filter, hd, hdk]
  simp only at he
  rw [he] at this
  exact List.not_mem_nil _ this

theorem proportion_eq (value : List Row) (name : String) (h : value ≠ []) :
    proportion value name =
      .finite (((value.filter (fun d => d.aqi_category = name)).length : ℚ) /
        (value.length : ℚ)) := by
  have : (value.length : ℚ) ≠ 0 := by
    simpa using h
  simp [proportion, JSNumber.div, this]

theorem category_lengths_sum (value : List Row)
    (h : ∀ r ∈ value, r.aqi_category ∈ categoryNames) :
    (value.filter (fun d => d.aqi_category = "good")).length +
      (value.filter (fun d => d.aqi_category = "moderate")).length +
      (value.filter (fun d => d.aqi_category = "unhealthy for sensitive groups")).length +
      (value.filter (fun d => d.aqi_category = "unhealthy")).length +
      (value.filter (fun d => d.aqi_category = "very unhealthy")).length +
      (value.filter (fun d => d.aqi_category = "hazardous")).length = value.length := by
  induction value with
  | nil => rfl
  | cons x xs ih =>
    have ih' := ih (fun r hr => h r (List.mem_cons_of_mem _ hr))
    have hx := h x (List.mem_cons_self _ _)
    simp only [categoryNames, List.mem_cons, List.mem_singleton, List.not_mem_nil,
      or_false] at hx
    rcases hx with hx | hx | hx | hx | hx | hx <;>
      simp [List.filter_cons, hx] <;> omega

theorem topCountries_subset (data : List Row) (e : CountryProportions)
    (h : e ∈ topCountries data) : e ∈ countries data :=
  (arraySort_perm _ _).subset (List.mem_of_mem_take h)

theorem length_filter_filter (data : List Row) (k name : String) :
    ((data.filter (fun d => d.country = k)).filter (fun d => d.aqi_category = name)).length =
      data.countP (fun r => r.country = k ∧ r.aqi_category = name) := by
  rw [List.filter_filter, List.countP_eq_length_filter]
  congr 2
  funext r
  simp [Bool.and_comm]

/-- The heatmap rows on the code: every included country has at least one row, `total` is the
number of its rows, and each of the six proportions is the finite number count_in_category /
total, where a row is counted in a category when its `aqi_category` is exactly the lower-case
name of the category.  When every `aqi_category` is exactly one of the six lower-case names,
the six proportions of every included country add up to exactly 1. -/
theorem topCountries_proportions (data : List Row) :
    (∀ e ∈ topCountries data,
        1 ≤ e.total ∧
        e.total = data.countP (fun r => r.country = e.country) ∧
        e.good = .finite (categoryShare data e.country "good") ∧
        e.moderate = .finite (categoryShare data e.country "moderate") ∧
        e.unhealthy_sensitive =
          .finite (categoryShare data e.country "unhealthy for sensitive groups") ∧
        e.unhealthy = .finite (categoryShare data e.country "unhealthy") ∧
        e.very_unhealthy = .finite (categoryShare data e.country "very unhealthy") ∧
        e.hazardous = .finite (categoryShare data e.country "hazardous")) ∧
      ((∀ r ∈ data, r.aqi_category ∈ categoryNames) →
        ∀ e ∈ topCountries data, proportionSum e = .finite 1) := by
  have hshare : ∀ (k name : String),
      (((data.filter (fun d => d.country = k)).filter
          (fun d => d.aqi_category = name)).length : ℚ) /
        ((data.filter (fun d => d.country = k)).length : ℚ) = categoryShare data k name := by
    intro k name
    rw [length_filter_filter, categoryShare, List.countP_eq_length_filter,
      List.countP_eq_length_filter]
  constructor
  · intro e he
    obtain ⟨kv, hkv, rfl⟩ := List.mem_map.mp (topCountries_subset data e he)
    obtain ⟨hrows, hne, _⟩ := group_mem data _ kv hkv
    have hpos : 1 ≤ kv.2.length := List.length_pos.mpr hne
    refine ⟨hpos, ?_, ?_, ?_, ?_, ?_, ?_, ?_⟩
    · simp only [List.countP_eq_length_filter]
      rw [hrows]
    all_goals
      simp only [proportion_eq _ _ hne]
      rw [hrows, hshare]
  · intro hcat e he
    obtain ⟨kv, hkv, rfl⟩ := List.mem_map.mp (topCountries_subset data e he)
    obtain ⟨hrows, hne, _⟩ := group_mem data _ kv hkv
    have hin : ∀ r ∈ kv.2, r.aqi_category ∈ categoryNames := by
      intro r hr
      rw [hrows] at hr
      exact hcat r (List.mem_filter.mp hr).1
    have hsum := category_lengths_sum kv.2 hin
    have hlen : (kv.2.length : ℚ) ≠ 0 := by
      simpa using hne
    simp only [proportionSum, proportion_eq _ _ hne, JSNumber.add]
    congr 1
    rw [← add_div, ← add_div, ← add_div, ← add_div, ← add_div]
    rw [div_eq_one_iff_eq hlen]
    exact_mod_cast hsum

/-- An instance of the heatmap rows: two countries over three of the six lower-case names. -/
theorem topCountries_proportions_witness :
    ∀ e ∈ topCountries
        [sampleRow "X" "a" "good", sampleRow "Y" "b" "hazardous", sampleRow "X" "c" "moderate"],
      proportionSum e = .finite 1 :=
  (topCountries_proportions _).2 (by decide)

/-- C7, evaluated on the code: the single row of country X has `aqi_category` "Good", a member
of the case-insensitive set of categories; X is included with total 1 and its six
proportions are all 0, so they add up to 0 and not to 1. -/
theorem topCountries_capitalized_category :
    (∀ r ∈ [sampleRow "X" "a" "Good"], toLowerCase r.aqi_category ∈ categoryNames) ∧
      topCountries [sampleRow "X" "a" "Good"] =
        [⟨"X", 1, .finite 0, .finite 0, .finite 0, .finite 0, .finite 0, .finite 0⟩] ∧
      proportionSum ⟨"X", 1, .finite 0, .finite 0, .finite 0, .finite 0, .finite 0, .finite 0⟩ ≠
        .finite 1 := by
  refine ⟨by decide, ?_, ?_⟩
  · simp [topCountries, countries, group, groupPush, arraySort, proportion, JSNumber.div,
      sampleRow]
  · simp [proportionSum, JSNumber.add]

/-! ## Per-country percentage share -/

theorem mean_of_ne_nil {α : Type} (values : List α) (accessor : α → ℚ) (h : values ≠ []) :
    mean values accessor = some ((values.map accessor).sum / (values.length : ℚ)) := by
  have : values.length ≠ 0 := fun e => h (List.length_eq_zero.mp e)
  simp [mean, this]

theorem percentage_of_zero_total (v : ℚ) (q : ℚ) :
    percentage (some v) (.finite 0) ≠ .finite q := by
  rcases lt_trichotomy v 0 with hv | hv | hv
  · have h1 : ¬ v = 0 := ne_of_lt hv
    have h2 : ¬ 0 < v := not_lt.mpr (le_of_lt hv)
    simp [percentage, JSNumber.ofOption, JSNumber.div, JSNumber.mul, h1, h2]
  · simp [percentage, JSNumber.ofOption, JSNumber.div, JSNumber.mul, hv]
  · have h1 : ¬ v = 0 := ne_of_gt hv
    simp [percentage, JSNumber.ofOption, JSNumber.div, JSNumber.mul, h1, hv]

/-- With a non-zero finite total the share of a finite mean is mean / total * 100. -/
theorem percentage_of_nonzero_total (v t : ℚ) (ht : t ≠ 0) :
    percentage (some v) (.finite t) = .finite (v / t * 100) := by
  simp [percentage, JSNumber.ofOption, JSNumber.div, JSNumber.mul, ht]

/-- C8, as the code has it: every element of `countryPollutantData` carries four means that
are numbers, and `total` is their sum.  When `total` is not 0 the share of each pollutant is
mean / total * 100.  The division has no guard: when `total` is 0 no share is a finite
number (it is `NaN` for a mean of 0 and an infinity otherwise), so no share is 0. -/
theorem pollutantShares_percentage (data : List Row) (d : CountryPollutants)
    (hd : d ∈ countryPollutantData data) :
    ∃ co oz no2 pm : ℚ,
      d.co_aqi = some co ∧ d.ozone_aqi = some oz ∧ d.no2_aqi = some no2 ∧
      d.pm25_aqi = some pm ∧
      pollutantTotal d = .finite (co + oz + no2 + pm) ∧
      (co + oz + no2 + pm ≠ 0 →
        pollutantShares d =
          [⟨"co_aqi", some co, .finite (co / (co + oz + no2 + pm) * 100)⟩,
            ⟨"ozone_aqi", some oz, .finite (oz / (co + oz + no2 + pm) * 100)⟩,
            ⟨"no2_aqi", some no2, .finite (no2 / (co + oz + no2 + pm) * 100)⟩,
            ⟨"pm25_aqi", some pm, .finite (pm / (co + oz + no2 + pm) * 100)⟩]) ∧
      (co + oz + no2 + pm = 0 →
        ∀ s ∈ pollutantShares d, ∀ q : ℚ, s.percentage ≠ .finite q) := by
  obtain ⟨kv, hkv, rfl⟩ := List.mem_map.mp (List.mem_filter.mp hd).1
  obtain ⟨_, hne, _⟩ := group_mem data _ kv hkv
  refine ⟨_, _, _, _, mean_of_ne_nil _ _ hne, mean_of_ne_nil _ _ hne, mean_of_ne_nil _ _ hne,
    mean_of_ne_nil _ _ hne, ?_, ?_, ?_⟩
  · simp [pollutantTotal, mean_of_ne_nil _ _ hne, JSNumber.ofOption, JSNumber.add]
  · intro ht
    simp only [pollutantShares, pollutantTotal, mean_of_ne_nil _ _ hne, JSNumber.ofOption,
      JSNumber.add, percentage_of_nonzero_total _ _ ht]
  · intro ht s hs q
    simp only [pollutantShares, pollutantTotal, mean_of_ne_nil _ _ hne, JSNumber.ofOption,
      JSNumber.add, ht, List.mem_cons, List.mem_singleton, List.not_mem_nil, or_false] at hs
    rcases hs with rfl | rfl | rfl | rfl <;> exact percentage_of_zero_total _ q

/-- C8, witness: a country whose only row has the four measurements 1, 1, 1, 1. -/
theorem pollutantShares_percentage_witness :
    ∃ co oz no2 pm : ℚ,
      (⟨"X", some 1, some 1, some 1, some 1⟩ : CountryPollutants).co_aqi = some co ∧
      (⟨"X", some 1, some 1, some 1, some 1⟩ : CountryPollutants).ozone_aqi = some oz ∧
      (⟨"X", some 1, some 1, some 1, some 1⟩ : CountryPollutants).no2_aqi = some no2 ∧
      (⟨"X", some 1, some 1, some 1, some 1⟩ : CountryPollutants).pm25_aqi = some pm ∧
      pollutantTotal ⟨"X", some 1, some 1, some 1, some 1⟩ = .finite (co + oz + no2 + pm) ∧
      (co + oz + no2 + pm ≠ 0 →
        pollutantShares ⟨"X", some 1, some 1, some 1, some 1⟩ =
          [⟨"co_aqi", some co, .finite (co / (co + oz + no2 + pm) * 100)⟩,
            ⟨"ozone_aqi", some oz, .finite (oz / (co + oz + no2 + pm) * 100)⟩,
            ⟨"no2_aqi", some no2, .finite (no2 / (co + oz + no2 + pm) * 100)⟩,
            ⟨"pm25_aqi", some pm, .finite (pm / (co + oz + no2 + pm) * 100)⟩]) ∧
      (co + oz + no2 + pm = 0 →
        ∀ s ∈ pollutantShares ⟨"X", some 1, some 1, some 1, some 1⟩, ∀ q : ℚ,
          s.percentage ≠ .finite q) :=
  pollutantShares_percentage [⟨"X", "a", "good", some 1, some 1, some 1, some 1⟩]
    ⟨"X", some 1, some 1, some 1, some 1⟩
    (by
      simp [countryPollutantData, topCountriesArr, rollup, group, groupPush, arraySort, mean,
        orZero])

/-- C8 as stated fails: for a country whose only row has the four pollutant cells reading 0,
the four means are 0, `total` is 0, and the share emitted for each pollutant is `NaN`,
not 0. -/
theorem pollutantShares_zero_total :
    (countryPollutantData [⟨"X", "a", "good", some 0, some 0, some 0, some 0⟩]).map
        (fun d => (pollutantTotal d, pollutantShares d)) =
      [(.finite 0,
        [⟨"co_aqi", some 0, .nan⟩, ⟨"ozone_aqi", some 0, .nan⟩, ⟨"no2_aqi", some 0, .nan⟩,
          ⟨"pm25_aqi", some 0, .nan⟩])] := by
  simp [countryPollutantData, topCountriesArr, rollup, group, groupPush, arraySort, mean,
    orZero, pollutantTotal, pollutantShares, percentage, JSNumber.ofOption, JSNumber.add,
    JSNumber.div, JSNumber.mul]

/-! ## Lemmas: double-precision addition -/

theorem roundHalfEven_intCast (n : ℤ) : roundHalfEven (n : ℚ) = n := by
  simp [roundHalfEven]

/-- A whole number below 2 to the power 53 is a double: rounding leaves it as it is. -/
theorem roundDouble_natCast (n : ℕ) (h : n < 2 ^ 53) : roundDouble (n : ℚ) = n := by
  by_cases h0 : n = 0
  · simp [roundDouble, h0]
  have hq : (n : ℚ) ≠ 0 := by exact_mod_cast h0
  have hlog : Int.log 2 |(n : ℚ)| = (Nat.log 2 n : ℤ) := by
    rw [abs_of_nonneg (by positivity)]
    exact Int.log_natCast 2 n
  have hlt : Nat.log 2 n < 53 := Nat.log_lt_of_lt_pow h0 h
  obtain ⟨k, hk⟩ : ∃ k : ℕ, (Nat.log 2 n : ℤ) + k = 52 := ⟨52 - Nat.log 2 n, by omega⟩
  have hulp : ulpOf (n : ℚ) = ((2 : ℚ) ^ k)⁻¹ := by
    rw [ulpOf, hlog]
    have : max (Nat.log 2 n : ℤ) (-1022) - 52 = -(k : ℤ) := by omega
    rw [this, zpow_neg, zpow_natCast]
  have hdiv : (n : ℚ) / ulpOf (n : ℚ) = ((n * 2 ^ k : ℕ) : ℤ) := by
    rw [hulp]
    push_cast
    field_simp
  rw [roundDouble, if_neg hq, hdiv, roundHalfEven_intCast, hulp]
  push_cast
  field_simp

/-- Adding two whole numbers whose sum is below 2 to the power 53 does not round. -/
theorem jsAdd_natCast (a b : ℕ) (h : a + b < 2 ^ 53) : jsAdd (a : ℚ) (b : ℚ) = a + b := by
  have := roundDouble_natCast (a + b) h
  rw [jsAdd]
  exact_mod_cast this

theorem sum_natCast (l : List ℚ) (hl : ∀ x ∈ l, ∃ n : ℕ, x = n) : ∃ m : ℕ, l.sum = m := by
  induction l with
  | nil => exact ⟨0, by simp⟩
  | cons x xs ih =>
    obtain ⟨n, hn⟩ := hl x (List.mem_cons_self _ _)
    obtain ⟨m, hm⟩ := ih (fun y hy => hl y (List.mem_cons_of_mem _ hy))
    exact ⟨n + m, by rw [List.sum_cons, hn, hm]; push_cast; rfl⟩

/-- A running sum of whole numbers that stays below 2 to the power 53 is the exact sum. -/
theorem foldl_jsAdd_natCast (l : List ℚ) (hl : ∀ x ∈ l, ∃ n : ℕ, x = n) :
    ∀ acc : ℕ, (acc : ℚ) + l.sum < 2 ^ 53 → l.foldl jsAdd (acc : ℚ) = acc + l.sum := by
  induction l with
  | nil =>
    intro acc _
    simp
  | cons x xs ih =>
    intro acc hb
    obtain ⟨n, rfl⟩ := hl x (List.mem_cons_self _ _)
    have hxs : ∀ y ∈ xs, ∃ m : ℕ, y = m := fun y hy => hl y (List.mem_cons_of_mem _ hy)
    obtain ⟨m, hm⟩ := sum_natCast xs hxs
    rw [List.sum_cons, hm] at hb
    have hlt : acc + n < 2 ^ 53 := by
      have h1 : ((acc + n + m : ℕ) : ℚ) < ((2 ^ 53 : ℕ) : ℚ) := by
        push_cast
        linarith
      have h2 : acc + n + m < 2 ^ 53 := by exact_mod_cast h1
      omega
    have hstep : jsAdd (acc : ℚ) (n : ℚ) = ((acc + n : ℕ) : ℚ) := by
      rw [jsAdd_natCast acc n hlt]
      push_cast
      rfl
    rw [List.foldl_cons, hstep, ih hxs (acc + n) (by rw [hm]; push_cast; linarith),
      List.sum_cons]
    push_cast
    ring

theorem foldl_jsAdd_zero (l : List ℚ) (hl : ∀ x ∈ l, ∃ n : ℕ, x = n) (hb : l.sum < 2 ^ 53) :
    l.foldl jsAdd 0 = l.sum := by
  have := foldl_jsAdd_natCast l hl 0 (by simpa using hb)
  simpa using this

theorem log_eq_of_bounds (q : ℚ) (e : ℤ) (hq : 0 < q) (h1 : (2 : ℚ) ^ e ≤ q)
    (h2 : q < (2 : ℚ) ^ (e + 1)) : Int.log 2 q = e := by
  have hb : 1 < 2 := by norm_num
  have a1 : e ≤ Int.log 2 q := (Int.zpow_le_iff_le_log hb hq).mp (by exact_mod_cast h1)
  have a2 : Int.log 2 q < e + 1 := (Int.lt_zpow_iff_log_lt hb hq).mp (by exact_mod_cast h2)
  omega

theorem roundHalfEven_eval (x : ℚ) (f : ℤ) (h1 : (f : ℚ) ≤ x) (h2 : x < f + 1) :
    roundHalfEven x =
      if x - f < 1 / 2 then f else if 1 / 2 < x - f then f + 1
      else if f % 2 = 0 then f else f + 1 := by
  have hf : ⌊x⌋ = f := Int.floor_eq_iff.mpr ⟨h1, h2⟩
  simp [roundHalfEven, hf]

/-- The double nearest to a positive `q` of exponent `e`, from the integer part `f` of
`q` counted in units of the spacing. -/
theorem roundDouble_eval (q : ℚ) (e f n : ℤ) (hq : 0 < q) (he : -1022 ≤ e)
    (h1 : (2 : ℚ) ^ e ≤ q) (h2 : q < (2 : ℚ) ^ (e + 1))
    (hf1 : (f : ℚ) ≤ q / 2 ^ (e - 52)) (hf2 : q / 2 ^ (e - 52) < f + 1)
    (hn : (if q / 2 ^ (e - 52) - f < 1 / 2 then f
      else if 1 / 2 < q / 2 ^ (e - 52) - f then f + 1
      else if f % 2 = 0 then f else f + 1) = n) :
    roundDouble q = n * 2 ^ (e - 52) := by
  have hlog : Int.log 2 |q| = e := by
    rw [abs_of_pos hq]
    exact log_eq_of_bounds q e hq h1 h2
  have hulp : ulpOf q = 2 ^ (e - 52) := by
    rw [ulpOf, hlog, max_eq_left he]
  rw [roundDouble, if_neg (ne_of_gt hq), hulp, roundHalfEven_eval _ f hf1 hf2, hn]

theorem roundDouble_zero : roundDouble 0 = 0 := by
  simp [roundDouble]

/-! ## Hazardous-City Pollutant Total Aggregator -/

theorem firstOccurrences_eq_nil (ks : List String) : firstOccurrences ks = [] ↔ ks = [] := by
  cases ks <;> simp [firstOccurrences]

theorem sum_map_ite_of_nodup (L : List String) (a : String) (c : ℚ) (hL : L.Nodup) :
    (L.map (fun k => if a = k then c else 0)).sum = if a ∈ L then c else 0 := by
  induction L with
  | nil => simp
  | cons k L ih =>
    obtain ⟨hk, hL'⟩ := List.nodup_cons.mp hL
    by_cases h : a = k
    · subst h
      simp [ih hL', hk]
    · simp [ih hL', h]

/-- Summing group by group, over the distinct keys, is summing over all rows. -/
theorem sum_fiberwise {α : Type} (l : List α) (key : α → String) (f : α → ℚ) :
    ((firstOccurrences (l.map key)).map
      (fun k => ((l.filter (fun d => key d = k)).map f).sum)).sum = (l.map f).sum := by
  induction l using List.reverseRecOn with
  | nil => simp [firstOccurrences]
  | append_singleton xs x ih =>
    have hS : ∀ k, (((xs ++ [x]).filter (fun d => key d = k)).map f).sum =
        ((xs.filter (fun d => key d = k)).map f).sum + (if key x = k then f x else 0) := by
      intro k
      by_cases h : key x = k <;> simp [List.filter_append, h]
    simp only [hS, List.map_append, List.map_cons, List.map_nil,
      firstOccurrences_append_singleton]
    by_cases hx : key x ∈ xs.map key
    · simp only [hx, if_true, List.sum_map_add, ih, List.sum_append, List.sum_cons,
        List.sum_nil, add_zero]
      rw [sum_map_ite_of_nodup _ _ _ (nodup_firstOccurrences _)]
      simp [mem_firstOccurrences, hx]
    · have h0 : xs.filter (fun d => decide (key d = key x)) = [] := by
        rw [List.filter_eq_nil_iff]
        intro a ha
        simp only [decide_eq_true_eq]
        intro e
        exact hx (List.mem_map.mpr ⟨a, ha, e⟩)
      simp only [hx, if_false, List.map_append, List.sum_append, List.map_cons, List.map_nil,
        List.sum_cons, List.sum_nil, add_zero, List.sum_map_add, ih, h0, if_true, zero_add]
      rw [sum_map_ite_of_nodup _ _ _ (nodup_firstOccurrences _)]
      simp [mem_firstOccurrences, hx]

theorem lookup_map_isNone (L : List String) (h : String → CitySums) (key : String) :
    ((L.map (fun k => (k, h k))).lookup key).isNone = true ↔ key ∉ L := by
  induction L with
  | nil => simp
  | cons k L ih =>
    by_cases hk : key = k
    · subst hk
      simp [List.lookup_cons]
    · have hk' : (key == k) = false := by simpa using hk
      simp [List.lookup_cons, hk', ih, hk]

theorem cityMapStep_map (L : List String) (h : String → CitySums) (row : Row) :
    cityMapStep (L.map (fun k => (k, h k))) row =
      if cityKey row ∈ L then
        L.map (fun k => (k, if k = cityKey row then addRow (h k) row else h k))
      else
        L.map (fun k => (k, h k)) ++
          [(cityKey row, addRow ⟨cityKey row, 0, 0, 0, 0⟩ row)] := by
  unfold cityMapStep
  by_cases hin : cityKey row ∈ L
  · have hnone : ((L.map (fun k => (k, h k))).lookup (cityKey row)).isNone = false := by
      rw [← Bool.not_eq_true, lookup_map_isNone]
      exact fun hn => hn hin
    simp only [hnone, hin, if_true, if_false, List.map_map, Bool.false_eq_true]
    apply List.map_congr_left
    intro k _
    by_cases hk : k = cityKey row <;> simp [hk]
  · have hnone : ((L.map (fun k => (k, h k))).lookup (cityKey row)).isNone = true :=
      (lookup_map_isNone L h _).mpr hin
    simp only [hnone, hin, if_true, if_false, List.map_append, List.map_map, List.map_cons,
      List.map_nil]
    congr 1
    apply List.map_congr_left
    intro k hk
    have : k ≠ cityKey row := fun e => hin (e ▸ hk)
    simp [this]

theorem runningSums_append_singleton (k : String) (rows : List Row) (row : Row) :
    runningSums k (rows ++ [row]) = addRow (runningSums k rows) row := by
  simp [runningSums, List.foldl_append]

/-- The object `cityMap` lists the keys in order of first appearance and stores under each key
the running sums over the rows with that key. -/
theorem foldl_cityMapStep (rows : List Row) :
    rows.foldl cityMapStep [] =
      (firstOccurrences (rows.map cityKey)).map
        (fun k => (k, runningSums k (rows.filter (fun r => cityKey r = k)))) := by
  induction rows using List.reverseRecOn with
  | nil => simp [firstOccurrences]
  | append_singleton xs x ih =>
    rw [List.foldl_append, List.foldl_cons, List.foldl_nil, ih, cityMapStep_map]
    simp only [List.map_append, List.map_cons, List.map_nil,
      firstOccurrences_append_singleton, mem_firstOccurrences]
    by_cases hx : cityKey x ∈ xs.map cityKey
    · simp only [hx, if_true]
      apply List.map_congr_left
      intro k _
      by_cases hk : k = cityKey x
      · subst hk
        simp [List.filter_append, runningSums_append_singleton]
      · have hk' : ¬ cityKey x = k := fun e => hk e.symm
        simp [hk, hk', List.filter_append]
    · simp only [hx, if_false, List.map_append, List.map_cons, List.map_nil]
      congr 1
      · apply List.map_congr_left
        intro k hk
        have hk' : ¬ cityKey x = k := by
          intro e
          rw [mem_firstOccurrences] at hk
          exact hx (e ▸ hk)
        simp [List.filter_append, hk']
      · have h0 : xs.filter (fun d => decide (cityKey d = cityKey x)) = [] := by
          rw [List.filter_eq_nil_iff]
          intro a ha
          simp only [decide_eq_true_eq]
          intro e
          exact hx (List.mem_map.mpr ⟨a, ha, e⟩)
        simp [List.filter_append, h0, runningSums]

theorem cityTotals_eq (data : List Row) :
    cityTotals data =
      (firstOccurrences ((hazardousRows data).map cityKey)).map (fun k =>
        assignTotal (runningSums k ((hazardousRows data).filter (fun r => cityKey r = k)))) := by
  rw [cityTotals, cityMap, foldl_cityMapStep, List.map_map]
  rfl

theorem foldl_addRow_city (rows : List Row) (e : CitySums) :
    (rows.foldl addRow e).city = e.city := by
  induction rows generalizing e with
  | nil => rfl
  | cons r rs ih => rw [List.foldl_cons, ih]; rfl

theorem cityTotals_keys (data : List Row) :
    (cityTotals data).map (fun g => g.city) =
      firstOccurrences ((hazardousRows data).map cityKey) := by
  rw [cityTotals_eq, List.map_map]
  have h : ∀ k ∈ firstOccurrences ((hazardousRows data).map cityKey),
      ((fun g : CityTotals => g.city) ∘ fun k => assignTotal
        (runningSums k ((hazardousRows data).filter (fun r => cityKey r = k)))) k = id k :=
    fun k _ => foldl_addRow_city _ _
  rw [List.map_congr_left h, List.map_id]

theorem foldl_addRow_co (rows : List Row) (e : CitySums) :
    (rows.foldl addRow e).co_aqi =
      (rows.map (fun r => orZero r.co_aqi)).foldl jsAdd e.co_aqi := by
  induction rows generalizing e with
  | nil => rfl
  | cons r rs ih => rw [List.foldl_cons, ih]; rfl

theorem foldl_addRow_ozone (rows : List Row) (e : CitySums) :
    (rows.foldl addRow e).ozone_aqi =
      (rows.map (fun r => orZero r.ozone_aqi)).foldl jsAdd e.ozone_aqi := by
  induction rows generalizing e with
  | nil => rfl
  | cons r rs ih => rw [List.foldl_cons, ih]; rfl

theorem foldl_addRow_no2 (rows : List Row) (e : CitySums) :
    (rows.foldl addRow e).no2_aqi =
      (rows.map (fun r => orZero r.no2_aqi)).foldl jsAdd e.no2_aqi := by
  induction rows generalizing e with
  | nil => rfl
  | cons r rs ih => rw [List.foldl_cons, ih]; rfl

theorem foldl_addRow_pm25 (rows : List Row) (e : CitySums) :
    (rows.foldl addRow e).pm25_aqi =
      (rows.map (fun r => orZero r.pm25_aqi)).foldl jsAdd e.pm25_aqi := by
  induction rows generalizing e with
  | nil => rfl
  | cons r rs ih => rw [List.foldl_cons, ih]; rfl

theorem hazardousRows_eq_nil (data : List Row) :
    hazardousRows data = [] ↔ ∀ r ∈ data, toLowerCase r.aqi_category ≠ "hazardous" := by
  rw [hazardousRows, List.filter_eq_nil_iff]
  constructor
  · intro h r hr he
    apply h r hr
    simp only [decide_eq_true_eq]
    refine ⟨?_, he⟩
    intro hempty
    rw [hempty] at he
    exact absurd he (by decide)
  · intro h r hr
    simp only [decide_eq_true_eq]
    exact fun hc => h r hr hc.2

theorem cityData_eq_nil (data : List Row) :
    cityData data = [] ↔ ∀ r ∈ data, toLowerCase r.aqi_category ≠ "hazardous" := by
  rw [← hazardousRows_eq_nil]
  have h1 : cityData data = [] ↔ cityTotals data = [] := by
    rw [cityData]
    constructor
    · intro h
      have hl := congrArg List.length h
      rw [List.length_take, (arraySort_perm _ _).length_eq] at hl
      have : (cityTotals data).length = 0 := by
        simp only [List.length_nil] at hl
        omega
      exact List.length_eq_zero.mp this
    · intro h
      rw [h]
      rfl
  rw [h1, cityTotals_eq, List.map_eq_nil_iff, firstOccurrences_eq_nil, List.map_eq_nil_iff]

theorem hazardousRows_eq_filter (data : List Row) :
    hazardousRows data = data.filter (fun r => toLowerCase r.aqi_category = "hazardous") := by
  rw [hazardousRows]
  apply List.filter_congr
  intro r _
  by_cases h : toLowerCase r.aqi_category = "hazardous"
  · have hne : r.aqi_category ≠ "" := by
      intro he
      rw [he] at h
      exact absurd h (by decide)
    simp [h, hne]
  · simp [h]

/-- C9: `drawHorizontalBarChart` takes the "No Hazardous AQI Data Available for This Filter"
branch, that is `cityData` has length 0, if and only if no row of the filtered input has
the lower-cased `aqi_category` "hazardous"; whenever such a row exists `cityData` is not
empty and it is what the chart draws. -/
theorem drawHorizontalBarChart_noData_iff (data : List Row) :
    (drawHorizontalBarChart data = .noData ↔
        ∀ r ∈ data, toLowerCase r.aqi_category ≠ "hazardous") ∧
      ((cityData data).length = 0 ↔
        ∀ r ∈ data, toLowerCase r.aqi_category ≠ "hazardous") ∧
      ((∃ r ∈ data, toLowerCase r.aqi_category = "hazardous") →
        cityData data ≠ [] ∧ drawHorizontalBarChart data = .bars (cityData data)) := by
  have hlen : (cityData data).length = 0 ↔
      ∀ r ∈ data, toLowerCase r.aqi_category ≠ "hazardous" := by
    rw [List.length_eq_zero]
    exact cityData_eq_nil data
  refine ⟨?_, hlen, ?_⟩
  · rw [← hlen]
    unfold drawHorizontalBarChart
    by_cases h : (cityData data).length = 0 <;> simp [h]
  · rintro ⟨r, hr, hhaz⟩
    have hne : ¬ (cityData data).length = 0 := fun h => hlen.mp h r hr hhaz
    refine ⟨fun he => hne (by rw [he]; rfl), ?_⟩
    unfold drawHorizontalBarChart
    simp [hne]

/-- C9, witness: one hazardous row among two. -/
theorem drawHorizontalBarChart_noData_iff_witness :
    cityData [sampleRow "X" "a" "good", sampleRow "Y" "b" "Hazardous"] ≠ [] ∧
      drawHorizontalBarChart [sampleRow "X" "a" "good", sampleRow "Y" "b" "Hazardous"] =
        .bars (cityData [sampleRow "X" "a" "good", sampleRow "Y" "b" "Hazardous"]) :=
  (drawHorizontalBarChart_noData_iff _).2.2 ⟨sampleRow "Y" "b" "Hazardous", by decide, by decide⟩

theorem wholeCells_nonneg (r : Row) (h : wholeCells r) :
    0 ≤ orZero r.co_aqi ∧ 0 ≤ orZero r.ozone_aqi ∧ 0 ≤ orZero r.no2_aqi ∧
      0 ≤ orZero r.pm25_aqi := by
  obtain ⟨⟨a, ha⟩, ⟨b, hb⟩, ⟨c, hc⟩, ⟨d, hd⟩⟩ := h
  rw [ha, hb, hc, hd]
  exact ⟨by positivity, by positivity, by positivity, by positivity⟩

theorem rowTotal_eq (rows : List Row) :
    (rows.map rowTotal).sum =
      (rows.map (fun r => orZero r.co_aqi)).sum + (rows.map (fun r => orZero r.ozone_aqi)).sum +
        (rows.map (fun r => orZero r.no2_aqi)).sum +
        (rows.map (fun r => orZero r.pm25_aqi)).sum := by
  have hrow : rowTotal = fun r =>
      orZero r.co_aqi + orZero r.ozone_aqi + orZero r.no2_aqi + orZero r.pm25_aqi := rfl
  simp only [hrow, List.sum_map_add]

/-- On rows of whole measurements whose overall sum is below 2 to the power 53 no addition
of the loop rounds: the entry with its total holds the exact sums. -/
theorem assignTotal_runningSums_exact (k : String) (rows : List Row)
    (hw : ∀ r ∈ rows, wholeCells r) (hb : (rows.map rowTotal).sum < 2 ^ 53) :
    assignTotal (runningSums k rows) =
      ⟨k, (rows.map (fun r => orZero r.co_aqi)).sum,
        (rows.map (fun r => orZero r.ozone_aqi)).sum,
        (rows.map (fun r => orZero r.no2_aqi)).sum,
        (rows.map (fun r => orZero r.pm25_aqi)).sum, (rows.map rowTotal).sum⟩ := by
  have hnn : ∀ (f : Row → ℚ), (∀ r ∈ rows, 0 ≤ f r) → 0 ≤ (rows.map f).sum := by
    intro f hf
    apply List.sum_nonneg
    intro x hx
    obtain ⟨r, hr, rfl⟩ := List.mem_map.mp hx
    exact hf r hr
  have h1 := hnn (fun r => orZero r.co_aqi) (fun r hr => (wholeCells_nonneg r (hw r hr)).1)
  have h2 := hnn (fun r => orZero r.ozone_aqi) (fun r hr => (wholeCells_nonneg r (hw r hr)).2.1)
  have h3 := hnn (fun r => orZero r.no2_aqi) (fun r hr => (wholeCells_nonneg r (hw r hr)).2.2.1)
  have h4 := hnn (fun r => orZero r.pm25_aqi)
    (fun r hr => (wholeCells_nonneg r (hw r hr)).2.2.2)
  have hsum := rowTotal_eq rows
  have n1 : ∀ x ∈ rows.map (fun r => orZero r.co_aqi), ∃ n : ℕ, x = n := by
    intro x hx
    obtain ⟨r, hr, rfl⟩ := List.mem_map.mp hx
    exact (hw r hr).1
  have n2 : ∀ x ∈ rows.map (fun r => orZero r.ozone_aqi), ∃ n : ℕ, x = n := by
    intro x hx
    obtain ⟨r, hr, rfl⟩ := List.mem_map.mp hx
    exact (hw r hr).2.1
  have n3 : ∀ x ∈ rows.map (fun r => orZero r.no2_aqi), ∃ n : ℕ, x = n := by
    intro x hx
    obtain ⟨r, hr, rfl⟩ := List.mem_map.mp hx
    exact (hw r hr).2.2.1
  have n4 : ∀ x ∈ rows.map (fun r => orZero r.pm25_aqi), ∃ n : ℕ, x = n := by
    intro x hx
    obtain ⟨r, hr, rfl⟩ := List.mem_map.mp hx
    exact (hw r hr).2.2.2
  have e1 : (runningSums k rows).co_aqi = (rows.map (fun r => orZero r.co_aqi)).sum := by
    rw [runningSums, foldl_addRow_co]
    exact foldl_jsAdd_zero _ n1 (by linarith)
  have e2 : (runningSums k rows).ozone_aqi = (rows.map (fun r => orZero r.ozone_aqi)).sum := by
    rw [runningSums, foldl_addRow_ozone]
    exact foldl_jsAdd_zero _ n2 (by linarith)
  have e3 : (runningSums k rows).no2_aqi = (rows.map (fun r => orZero r.no2_aqi)).sum := by
    rw [runningSums, foldl_addRow_no2]
    exact foldl_jsAdd_zero _ n3 (by linarith)
  have e4 : (runningSums k rows).pm25_aqi = (rows.map (fun r => orZero r.pm25_aqi)).sum := by
    rw [runningSums, foldl_addRow_pm25]
    exact foldl_jsAdd_zero _ n4 (by linarith)
  have e0 : (runningSums k rows).city = k := foldl_addRow_city rows _
  have etotal : jsAdd (jsAdd (jsAdd (jsAdd 0 (runningSums k rows).co_aqi)
      (runningSums k rows).ozone_aqi) (runningSums k rows).no2_aqi)
      (runningSums k rows).pm25_aqi = (rows.map rowTotal).sum := by
    have hfold := foldl_jsAdd_zero
      [(rows.map (fun r => orZero r.co_aqi)).sum, (rows.map (fun r => orZero r.ozone_aqi)).sum,
        (rows.map (fun r => orZero r.no2_aqi)).sum, (rows.map (fun r => orZero r.pm25_aqi)).sum]
      (by
        intro x hx
        simp only [List.mem_cons, List.mem_singleton, List.not_mem_nil, or_false] at hx
        rcases hx with rfl | rfl | rfl | rfl
        · exact sum_natCast _ n1
        · exact sum_natCast _ n2
        · exact sum_natCast _ n3
        · exact sum_natCast _ n4)
      (by
        simp only [List.sum_cons, List.sum_nil]
        linarith)
    rw [e1, e2, e3, e4, hsum]
    simp only [List.foldl_cons, List.foldl_nil, List.sum_cons, List.sum_nil] at hfold
    rw [hfold]
    ring
  unfold assignTotal
  rw [etotal, e0, e1, e2, e3, e4]

/-- C10, as the code has it: the hazardous rows are the rows whose lower-cased `aqi_category`
is "hazardous"; the groups have pairwise distinct keys and every emitted group is one of
them.  In every group each of `co_aqi`, `ozone_aqi`, `no2_aqi`, `pm25_aqi` is the running
double-precision sum, not the mean, started at 0, of that measurement (an unreadable cell
taken as 0) over the hazardous rows with the key of the group, in row order, and `total` is
the running sum of the four, started at 0.  When every measurement of the hazardous rows is a
non-negative whole number and their overall sum is below 2 to the power 53, no addition
rounds: each field is the exact sum, `total` is the sum of the four sums, and the totals of
all groups before truncation add up to the sum of the four measurements over all hazardous
rows. -/
theorem cityData_sums (data : List Row) :
    hazardousRows data = data.filter (fun r => toLowerCase r.aqi_category = "hazardous") ∧
      ((cityTotals data).map (fun g => g.city)).Nodup ∧
      (∀ g ∈ cityData data, g ∈ cityTotals data) ∧
      (∀ g ∈ cityTotals data,
        g.co_aqi = (((hazardousRows data).filter (fun r => cityKey r = g.city)).map
          (fun r => orZero r.co_aqi)).foldl jsAdd 0 ∧
        g.ozone_aqi = (((hazardousRows data).filter (fun r => cityKey r = g.city)).map
          (fun r => orZero r.ozone_aqi)).foldl jsAdd 0 ∧
        g.no2_aqi = (((hazardousRows data).filter (fun r => cityKey r = g.city)).map
          (fun r => orZero r.no2_aqi)).foldl jsAdd 0 ∧
        g.pm25_aqi = (((hazardousRows data).filter (fun r => cityKey r = g.city)).map
          (fun r => orZero r.pm25_aqi)).foldl jsAdd 0 ∧
        g.total = jsAdd (jsAdd (jsAdd (jsAdd 0 g.co_aqi) g.ozone_aqi) g.no2_aqi) g.pm25_aqi) ∧
      ((∀ r ∈ hazardousRows data, wholeCells r) →
        ((hazardousRows data).map rowTotal).sum < 2 ^ 53 →
        (∀ g ∈ cityTotals data,
          g.co_aqi = (((hazardousRows data).filter (fun r => cityKey r = g.city)).map
            (fun r => orZero r.co_aqi)).sum ∧
          g.ozone_aqi = (((hazardousRows data).filter (fun r => cityKey r = g.city)).map
            (fun r => orZero r.ozone_aqi)).sum ∧
          g.no2_aqi = (((hazardousRows data).filter (fun r => cityKey r = g.city)).map
            (fun r => orZero r.no2_aqi)).sum ∧
          g.pm25_aqi = (((hazardousRows data).filter (fun r => cityKey r = g.city)).map
            (fun r => orZero r.pm25_aqi)).sum ∧
          g.total = g.co_aqi + g.ozone_aqi + g.no2_aqi + g.pm25_aqi) ∧
        ((cityTotals data).map (fun g => g.total)).sum =
          ((hazardousRows data).map rowTotal).sum) := by
  have hcity : ∀ k, (assignTotal (runningSums k
      ((hazardousRows data).filter (fun r => cityKey r = k)))).city = k :=
    fun k => foldl_addRow_city _ _
  refine ⟨hazardousRows_eq_filter data, ?_, ?_, ?_, ?_⟩
  · rw [cityTotals_keys]
    exact nodup_firstOccurrences _
  · intro g hg
    exact (arraySort_perm _ _).subset (List.mem_of_mem_take hg)
  · intro g hg
    rw [cityTotals_eq] at hg
    obtain ⟨k, _, rfl⟩ := List.mem_map.mp hg
    rw [hcity k]
    refine ⟨?_, ?_, ?_, ?_, rfl⟩
    · exact foldl_addRow_co _ _
    · exact foldl_addRow_ozone _ _
    · exact foldl_addRow_no2 _ _
    · exact foldl_addRow_pm25 _ _
  · intro hw hb
    have hexact : ∀ k, assignTotal (runningSums k
        ((hazardousRows data).filter (fun r => cityKey r = k))) =
        ⟨k, (((hazardousRows data).filter (fun r => cityKey r = k)).map
            (fun r => orZero r.co_aqi)).sum,
          (((hazardousRows data).filter (fun r => cityKey r = k)).map
            (fun r => orZero r.ozone_aqi)).sum,
          (((hazardousRows data).filter (fun r => cityKey r = k)).map
            (fun r => orZero r.no2_aqi)).sum,
          (((hazardousRows data).filter (fun r => cityKey r = k)).map
            (fun r => orZero r.pm25_aqi)).sum,
          (((hazardousRows data).filter (fun r => cityKey r = k)).map rowTotal).sum⟩ := by
      intro k
      apply assignTotal_runningSums_exact
      · exact fun r hr => hw r (List.mem_filter.mp hr).1
      · refine lt_of_le_of_lt (List.Sublist.sum_le_sum
          ((List.filter_sublist _).map rowTotal) ?_) hb
        intro x hx
        obtain ⟨r, hr, rfl⟩ := List.mem_map.mp hx
        obtain ⟨h1, h2, h3, h4⟩ := wholeCells_nonneg r (hw r hr)
        simp only [rowTotal]
        linarith
    constructor
    · intro g hg
      rw [cityTotals_eq] at hg
      obtain ⟨k, _, rfl⟩ := List.mem_map.mp hg
      rw [hexact k]
      exact ⟨rfl, rfl, rfl, rfl, rowTotal_eq _⟩
    · rw [cityTotals_eq, List.map_map]
      have hfun : ∀ k ∈ firstOccurrences ((hazardousRows data).map cityKey),
          ((fun g : CityTotals => g.total) ∘ fun k => assignTotal (runningSums k
            ((hazardousRows data).filter (fun r => cityKey r = k)))) k =
          (((hazardousRows data).filter (fun r => cityKey r = k)).map rowTotal).sum := by
        intro k _
        simp only [Function.comp, hexact k]
      rw [List.map_congr_left hfun]
      exact sum_fiberwise (hazardousRows data) cityKey rowTotal

theorem cityTotals_twoHazardousRows (a1 b1 a2 b2 : ℚ) :
    cityTotals (twoHazardousRows a1 b1 a2 b2) =
      [assignTotal ⟨"a (X)", jsAdd (jsAdd 0 a1) a2, jsAdd (jsAdd 0 b1) b2, jsAdd (jsAdd 0 0) 0,
        jsAdd (jsAdd 0 0) 0⟩] := by
  rfl

theorem hazardousRows_twoHazardousRows (a1 b1 a2 b2 : ℚ) :
    hazardousRows (twoHazardousRows a1 b1 a2 b2) = twoHazardousRows a1 b1 a2 b2 := by
  rfl

/-- C10, witness: two hazardous rows of one city with the whole measurements 1, 2 and
3, 4. -/
theorem cityData_sums_witness :
    ((cityTotals (twoHazardousRows 1 2 3 4)).map (fun g => g.total)).sum =
      ((hazardousRows (twoHazardousRows 1 2 3 4)).map rowTotal).sum :=
  ((cityData_sums (twoHazardousRows 1 2 3 4)).2.2.2.2
    (by
      rw [hazardousRows_twoHazardousRows]
      intro r hr
      simp only [twoHazardousRows, List.mem_cons, List.mem_singleton, List.not_mem_nil,
        or_false] at hr
      rcases hr with rfl | rfl
      · exact ⟨⟨1, by simp [orZero]⟩, ⟨2, by simp [orZero]⟩, ⟨0, by simp [orZero]⟩,
          ⟨0, by simp [orZero]⟩⟩
      · exact ⟨⟨3, by simp [orZero]⟩, ⟨4, by simp [orZero]⟩, ⟨0, by simp [orZero]⟩,
          ⟨0, by simp [orZero]⟩⟩)
    (by
      rw [hazardousRows_twoHazardousRows]
      simp only [twoHazardousRows, rowTotal, orZero, Option.getD_some, Option.getD_none,
        List.map_cons, List.map_nil, List.sum_cons, List.sum_nil]
      norm_num)).2

/-- C10 as stated fails on decimal cells: two hazardous rows of one city carry the `co_aqi`
cells 0.1 and 0.2 and the `ozone_aqi` cells 0.1 and 0.3, each cell being the double that the
text reads as.  The loop leaves `co_aqi` = 0.30000000000000004, which is not the sum of
the two `co_aqi` measurements, and `total` = 0.7000000000000001.  The four measurements of
the two rows add up to another number, exactly and also when they are added row by row in
double precision (0.7), so the totals do not add up to the sum over the hazardous rows. -/
theorem cityTotals_decimal_cells :
    cityTotals decimalRows =
        [⟨"a (X)", 1351079888211149 / 4503599627370496, 3602879701896397 / 9007199254740992, 0, 0,
          6305039478318695 / 9007199254740992⟩] ∧
      ((hazardousRows decimalRows).map rowTotal).sum = 12610078956637389 / 18014398509481984 ∧
      ((hazardousRows decimalRows).map rowTotalDouble).foldl jsAdd 0 =
        3152519739159347 / 4503599627370496 ∧
      ((cityTotals decimalRows).map (fun g => g.total)).sum ≠
        ((hazardousRows decimalRows).map rowTotal).sum ∧
      ((cityTotals decimalRows).map (fun g => g.total)).foldl jsAdd 0 ≠
        ((hazardousRows decimalRows).map rowTotalDouble).foldl jsAdd 0 ∧
      (1351079888211149 / 4503599627370496 : ℚ) ≠ cell01 + cell02 := by
  have d_a : roundDouble (3602879701896397 / 36028797018963968) =
      3602879701896397 / 36028797018963968 := by
    rw [roundDouble_eval _ (-4) 7205759403792794 7205759403792794 (by norm_num)
      (by norm_num) (by norm_num) (by norm_num) (by norm_num) (by norm_num) (by norm_num)]
    norm_num
  have d_co : roundDouble (3602879701896397 / 36028797018963968 +
      3602879701896397 / 18014398509481984) = 1351079888211149 / 4503599627370496 := by
    rw [roundDouble_eval _ (-2) 5404319552844595 5404319552844596 (by norm_num)
      (by norm_num) (by norm_num) (by norm_num) (by norm_num) (by norm_num) (by norm_num)]
    norm_num
  have d_oz : roundDouble (3602879701896397 / 36028797018963968 +
      5404319552844595 / 18014398509481984) = 3602879701896397 / 9007199254740992 := by
    rw [roundDouble_eval _ (-2) 7205759403792793 7205759403792794 (by norm_num)
      (by norm_num) (by norm_num) (by norm_num) (by norm_num) (by norm_num) (by norm_num)]
    norm_num
  have d_c3 : roundDouble (1351079888211149 / 4503599627370496) =
      1351079888211149 / 4503599627370496 := by
    rw [roundDouble_eval _ (-2) 5404319552844596 5404319552844596 (by norm_num)
      (by norm_num) (by norm_num) (by norm_num) (by norm_num) (by norm_num) (by norm_num)]
    norm_num
  have d_t : roundDouble (1351079888211149 / 4503599627370496 +
      3602879701896397 / 9007199254740992) = 6305039478318695 / 9007199254740992 := by
    rw [roundDouble_eval _ (-1) 6305039478318695 6305039478318695 (by norm_num)
      (by norm_num) (by norm_num) (by norm_num) (by norm_num) (by norm_num) (by norm_num)]
    norm_num
  have d_tt : roundDouble (6305039478318695 / 9007199254740992) =
      6305039478318695 / 9007199254740992 := by
    rw [roundDouble_eval _ (-1) 6305039478318695 6305039478318695 (by norm_num)
      (by norm_num) (by norm_num) (by norm_num) (by norm_num) (by norm_num) (by norm_num)]
    norm_num
  have d_r1 : roundDouble (3602879701896397 / 36028797018963968 +
      3602879701896397 / 36028797018963968) = 3602879701896397 / 18014398509481984 := by
    rw [roundDouble_eval _ (-3) 7205759403792794 7205759403792794 (by norm_num)
      (by norm_num) (by norm_num) (by norm_num) (by norm_num) (by norm_num) (by norm_num)]
    norm_num
  have d_b : roundDouble (3602879701896397 / 18014398509481984) =
      3602879701896397 / 18014398509481984 := by
    rw [roundDouble_eval _ (-3) 7205759403792794 7205759403792794 (by norm_num)
      (by norm_num) (by norm_num) (by norm_num) (by norm_num) (by norm_num) (by norm_num)]
    norm_num
  have d_r2 : roundDouble (3602879701896397 / 18014398509481984 +
      5404319552844595 / 18014398509481984) = 1 / 2 := by
    rw [roundDouble_eval _ (-1) 4503599627370496 4503599627370496 (by norm_num)
      (by norm_num) (by norm_num) (by norm_num) (by norm_num) (by norm_num) (by norm_num)]
    norm_num
  have d_h : roundDouble (1 / 2) =
      1 / 2 := by
    rw [roundDouble_eval _ (-1) 4503599627370496 4503599627370496 (by norm_num)
      (by norm_num) (by norm_num) (by norm_num) (by norm_num) (by norm_num) (by norm_num)]
    norm_num
  have d_s : roundDouble (3602879701896397 / 18014398509481984 +
      1 / 2) = 3152519739159347 / 4503599627370496 := by
    rw [roundDouble_eval _ (-1) 6305039478318694 6305039478318694 (by norm_num)
      (by norm_num) (by norm_num) (by norm_num) (by norm_num) (by norm_num) (by norm_num)]
    norm_num
  have h1 : cityTotals decimalRows =
      [⟨"a (X)", 1351079888211149 / 4503599627370496, 3602879701896397 / 9007199254740992, 0, 0,
        6305039478318695 / 9007199254740992⟩] := by
    rw [decimalRows, cityTotals_twoHazardousRows]
    simp only [cell01, cell02, cell03, assignTotal, jsAdd, zero_add, add_zero,
      roundDouble_zero, d_a, d_co, d_oz, d_c3, d_t, d_tt, d_r1,
      d_b, d_r2, d_h, d_s]
  have h2 : ((hazardousRows decimalRows).map rowTotal).sum =
      12610078956637389 / 18014398509481984 := by
    rw [decimalRows, hazardousRows_twoHazardousRows]
    simp only [twoHazardousRows, cell01, cell02, cell03, rowTotal, orZero, Option.getD_some,
      Option.getD_none, List.map_cons, List.map_nil, List.sum_cons, List.sum_nil]
    norm_num
  have h3 : ((hazardousRows decimalRows).map rowTotalDouble).foldl jsAdd 0 =
      3152519739159347 / 4503599627370496 := by
    rw [decimalRows, hazardousRows_twoHazardousRows]
    simp only [twoHazardousRows, cell01, cell02, cell03, rowTotalDouble, orZero,
      Option.getD_some, Option.getD_none, List.map_cons, List.map_nil, List.foldl_cons,
      List.foldl_nil, jsAdd, zero_add, add_zero, roundDouble_zero,
      d_a, d_co, d_oz, d_c3, d_t, d_tt, d_r1,
      d_b, d_r2, d_h, d_s]
  refine ⟨h1, h2, h3, ?_, ?_, ?_⟩
  · rw [h1, h2]
    simp only [List.map_cons, List.map_nil, List.sum_cons, List.sum_nil]
    norm_num
  · rw [h1, h3]
    simp only [List.map_cons, List.map_nil, List.foldl_cons, List.foldl_nil, jsAdd, zero_add,
      d_tt]
    norm_num
  · simp only [cell01, cell02]
    norm_num

theorem cityRanked_pairwise (l : List CityTotals) :
    (arraySort (fun a b : CityTotals => b.total - a.total) l).Pairwise
      (fun a b => b.total ≤ a.total) := by
  have h := arraySort_pairwise (fun a b : CityTotals => b.total - a.total)
    (fun a b => by
      rcases le_total a.total b.total with h | h
      · exact Or.inr (sub_nonpos.mpr h)
      · exact Or.inl (sub_nonpos.mpr h))
    (fun a b c h1 h2 => sub_nonpos.mpr ((sub_nonpos.mp h2).trans (sub_nonpos.mp h1))) l
  exact h.imp (fun h => sub_nonpos.mp h)

/-- C11: the groups before sorting are listed in order of first appearance of their key;
`cityData` is the first 15 entries of a list `ranked` that rearranges these groups, has
non-increasing totals and keeps, among the groups of any one total, the first-appearance
order; no group left out has a larger total than a group kept; `cityData` has at most 15
entries and its totals are non-increasing. -/
theorem cityData_top15 (data : List Row) :
    (cityTotals data).map (fun g => g.city) =
        firstOccurrences ((hazardousRows data).map cityKey) ∧
      (∃ ranked : List CityTotals,
        cityData data = ranked.take 15 ∧
        ranked.Perm (cityTotals data) ∧
        ranked.Pairwise (fun a b => b.total ≤ a.total) ∧
        (∀ t : ℚ, ranked.filter (fun a => a.total = t) =
          (cityTotals data).filter (fun a => a.total = t)) ∧
        (∀ a ∈ ranked.take 15, ∀ b ∈ ranked.drop 15, b.total ≤ a.total)) ∧
      (cityData data).length ≤ 15 ∧
      (cityData data).Pairwise (fun a b => b.total ≤ a.total) := by
  refine ⟨cityTotals_keys data, ⟨arraySort (fun a b : CityTotals => b.total - a.total)
    (cityTotals data), rfl, arraySort_perm _ _, cityRanked_pairwise _, ?_, ?_⟩, ?_, ?_⟩
  · intro t
    apply arraySort_filter
    intro a b ha hb
    simp only [decide_eq_true_eq] at ha hb
    rw [ha, hb, sub_self]
  · exact take_drop_pairwise _ _ 15 (cityRanked_pairwise _)
  · rw [cityData, List.length_take]
    exact Nat.min_le_left _ _
  · rw [cityData]
    exact (cityRanked_pairwise _).sublist (List.take_sublist _ _)

/-! ## The grouping key of the hazardous cities -/

theorem cityKey_data (r : Row) :
    (cityKey r).data = r.city.data ++ (' ' :: '(' :: (r.country.data ++ [')'])) := by
  simp [cityKey, String.data_append]

theorem append_cons_inj_of_not_mem {α : Type} (a : α) :
    ∀ (l1 l2 r1 r2 : List α), a ∉ l1 → a ∉ l2 → l1 ++ a :: r1 = l2 ++ a :: r2 →
      l1 = l2 ∧ r1 = r2
  | [], [], _, _, _, _, h => ⟨rfl, by simpa using h⟩
  | [], b :: l2, _, _, _, h2, h => by
    simp only [List.nil_append, List.cons_append, List.cons.injEq] at h
    exact absurd (h.1 ▸ List.mem_cons_self _ _) h2
  | b :: l1, [], _, _, h1, _, h => by
    simp only [List.nil_append, List.cons_append, List.cons.injEq] at h
    exact absurd (h.1 ▸ List.mem_cons_self _ _) h1
  | b :: l1, c :: l2, r1, r2, h1, h2, h => by
    simp only [List.cons_append, List.cons.injEq] at h
    obtain ⟨hl, hr⟩ := append_cons_inj_of_not_mem a l1 l2 r1 r2
      (fun hm => h1 (List.mem_cons_of_mem _ hm)) (fun hm => h2 (List.mem_cons_of_mem _ hm)) h.2
    exact ⟨by rw [h.1, hl], hr⟩

theorem cityKey_eq_of_city (r1 r2 : Row) (h : cityKey r1 = cityKey r2)
    (hc : r1.city = r2.city) : r1.country = r2.country := by
  have hd := congrArg String.data h
  rw [cityKey_data, cityKey_data, hc] at hd
  have h1 := List.append_cancel_left hd
  simp only [List.cons.injEq, true_and] at h1
  exact String.ext (List.append_cancel_right h1)

theorem cityKey_eq_of_country (r1 r2 : Row) (h : cityKey r1 = cityKey r2)
    (hc : r1.country = r2.country) : r1.city = r2.city := by
  have hd := congrArg String.data h
  rw [cityKey_data, cityKey_data, hc] at hd
  exact String.ext (List.append_cancel_right hd)

theorem cityKey_injective_of_noOpeningBracket (r1 r2 : Row) (h : cityKey r1 = cityKey r2)
    (h1 : noOpeningBracket r1.city) (h2 : noOpeningBracket r2.city) :
    r1.city = r2.city ∧ r1.country = r2.country := by
  have hd := congrArg String.data h
  rw [cityKey_data, cityKey_data] at hd
  have hd' : (r1.city.data ++ [' ']) ++ '(' :: (r1.country.data ++ [')']) =
      (r2.city.data ++ [' ']) ++ '(' :: (r2.country.data ++ [')']) := by
    simpa using hd
  have hn1 : '(' ∉ r1.city.data ++ [' '] := by
    simp only [List.mem_append, List.mem_singleton, not_or]
    exact ⟨h1, by decide⟩
  have hn2 : '(' ∉ r2.city.data ++ [' '] := by
    simp only [List.mem_append, List.mem_singleton, not_or]
    exact ⟨h2, by decide⟩
  obtain ⟨hl, hr⟩ := append_cons_inj_of_not_mem '(' _ _ _ _ hn1 hn2 hd'
  exact ⟨String.ext (List.append_cancel_right hl), String.ext (List.append_cancel_right hr)⟩

/-- Every hazardous row has its entry in `cityMap`; so two hazardous rows are accumulated
into the same entry exactly when the loop computes the same key for them. -/
theorem sameGroup_iff_cityKey (data : List Row) (r1 r2 : Row)
    (h1 : r1 ∈ hazardousRows data) : sameGroup data r1 r2 ↔ cityKey r1 = cityKey r2 := by
  constructor
  · rintro ⟨kv, _, hk1, hk2⟩
    rw [← hk1, ← hk2]
  · intro h
    refine ⟨(cityKey r1, runningSums (cityKey r1)
      ((hazardousRows data).filter (fun r => cityKey r = cityKey r1))), ?_, rfl, h⟩
    rw [cityMap, foldl_cityMapStep]
    refine List.mem_map.mpr ⟨cityKey r1, ?_, rfl⟩
    rw [mem_firstOccurrences]
    exact List.mem_map.mpr ⟨r1, h1, rfl⟩

/-- C12, as the code has it: a hazardous row and a second row are accumulated into the same
group if and only if the key text `city (country)` is the same for both.  Rows with the same city and the
same country share a group; rows of one group with the same city have the same country, and
with the same country the same city, so rows with the same city name and different
countries are never merged.  When neither city contains an opening bracket, the rows share
a group if and only if they have the same city and the same country. -/
theorem sameGroup_iff (data : List Row) (r1 r2 : Row) (h1 : r1 ∈ hazardousRows data) :
    (sameGroup data r1 r2 ↔ cityKey r1 = cityKey r2) ∧
      (r1.city = r2.city ∧ r1.country = r2.country → sameGroup data r1 r2) ∧
      (sameGroup data r1 r2 → r1.city = r2.city → r1.country = r2.country) ∧
      (sameGroup data r1 r2 → r1.country = r2.country → r1.city = r2.city) ∧
      (noOpeningBracket r1.city → noOpeningBracket r2.city →
        (sameGroup data r1 r2 ↔ r1.city = r2.city ∧ r1.country = r2.country)) := by
  have hiff := sameGroup_iff_cityKey data r1 r2 h1
  have hsame : r1.city = r2.city ∧ r1.country = r2.country → sameGroup data r1 r2 := by
    rintro ⟨hc, hk⟩
    rw [hiff, cityKey, cityKey, hc, hk]
  refine ⟨hiff, hsame, ?_, ?_, ?_⟩
  · intro hg hc
    exact cityKey_eq_of_city r1 r2 (hiff.mp hg) hc
  · intro hg hc
    exact cityKey_eq_of_country r1 r2 (hiff.mp hg) hc
  · intro hb1 hb2
    exact ⟨fun hg => cityKey_injective_of_noOpeningBracket r1 r2 (hiff.mp hg) hb1 hb2, hsame⟩

/-- C12, witness: two hazardous rows of the city "Delhi", one in "India" and one in "X". -/
theorem sameGroup_iff_witness :
    sameGroup [sampleRow "India" "Delhi" "hazardous", sampleRow "X" "Delhi" "Hazardous"]
        (sampleRow "India" "Delhi" "hazardous") (sampleRow "X" "Delhi" "Hazardous") ↔
      (sampleRow "India" "Delhi" "hazardous").city = (sampleRow "X" "Delhi" "Hazardous").city ∧
        (sampleRow "India" "Delhi" "hazardous").country =
          (sampleRow "X" "Delhi" "Hazardous").country :=
  (sameGroup_iff _ _ _ (by decide)).2.2.2.2 (by unfold noOpeningBracket; decide)
    (by unfold noOpeningBracket; decide)

/-- C12 as stated fails: the city "a (b" of country "c" and the city "a" of country "b (c"
are different cities of different countries, both get the key "a (b (c)" and are accumulated
into the same group. -/
theorem sameGroup_of_colliding_keys :
    sampleRow "c" "a (b" "hazardous" ∈
        hazardousRows [sampleRow "c" "a (b" "hazardous", sampleRow "b (c" "a" "hazardous"] ∧
      sampleRow "b (c" "a" "hazardous" ∈
        hazardousRows [sampleRow "c" "a (b" "hazardous", sampleRow "b (c" "a" "hazardous"] ∧
      sameGroup [sampleRow "c" "a (b" "hazardous", sampleRow "b (c" "a" "hazardous"]
        (sampleRow "c" "a (b" "hazardous") (sampleRow "b (c" "a" "hazardous") ∧
      (sampleRow "c" "a (b" "hazardous").city ≠ (sampleRow "b (c" "a" "hazardous").city ∧
      (sampleRow "c" "a (b" "hazardous").country ≠ (sampleRow "b (c" "a" "hazardous").country ∧
      (cityMap [sampleRow "c" "a (b" "hazardous", sampleRow "b (c" "a" "hazardous"]).map
        (fun kv => kv.1) = ["a (b (c)"] := by
  refine ⟨by decide, by decide, ?_, by decide, by decide, ?_⟩
  · exact (sameGroup_iff_cityKey _ _ _ (by decide)).mpr (by decide)
  · rw [cityMap, foldl_cityMapStep, List.map_map]
    decide

/-! ## Toggle semantics of the category selection -/

/-- C13: a click on the slice of category `c` sets `selectedCategory` to "all" when it was
`c` and to `c` otherwise; from a state whose category is not `c`, two clicks on `c` in a row
end with the category "all"; the click leaves the active country as it is. -/
theorem sliceClicked_toggle (s : SelectionState) (c : String) :
    (s.selectedCategory = c → (sliceClicked s c).selectedCategory = "all") ∧
      (s.selectedCategory ≠ c → (sliceClicked s c).selectedCategory = c) ∧
      (s.selectedCategory ≠ c →
        (sliceClicked (sliceClicked s c) c).selectedCategory = "all") ∧
      (sliceClicked s c).selectedCountry = s.selectedCountry := by
  refine ⟨?_, ?_, ?_, rfl⟩
  · intro h
    simp [sliceClicked, h]
  · intro h
    simp [sliceClicked, h]
  · intro h
    simp [sliceClicked, h]

/-- C13, witness: from the first draw, "Hazardous" selected twice in a row. -/
theorem sliceClicked_toggle_witness :
    (sliceClicked (sliceClicked initialState "Hazardous") "Hazardous").selectedCategory =
      "all" :=
  (sliceClicked_toggle initialState "Hazardous").2.2.1 (by decide)

/-! ## Per-Country Pollutant Mean Aggregator -/

theorem mean_eq_zero_of_none (values : List Row) (cell : Row → Option ℚ) (h : values ≠ [])
    (hnone : ∀ r ∈ values, cell r = none) :
    mean values (fun d => orZero (cell d)) = some 0 := by
  rw [mean_of_ne_nil _ _ h]
  have : values.map (fun d => orZero (cell d)) = values.map (fun _ => (0 : ℚ)) := by
    apply List.map_congr_left
    intro r hr
    simp [orZero, hnone r hr]
  rw [this]
  simp

/-- C14: every element of `countryPollutantData` stands for a country with at least one row
of the data; each of its four values is the sum, over the rows of that country, of the
measurement (an unreadable cell taken as 0) divided by the number of those rows; a pollutant
whose cell is unreadable in every row of the country has the mean 0. -/
theorem countryPollutantData_mean (data : List Row) (d : CountryPollutants)
    (hd : d ∈ countryPollutantData data) :
    1 ≤ (data.filter (fun r => r.country = d.country)).length ∧
      d.co_aqi = some (((data.filter (fun r => r.country = d.country)).map
        (fun r => orZero r.co_aqi)).sum /
          ((data.filter (fun r => r.country = d.country)).length : ℚ)) ∧
      d.ozone_aqi = some (((data.filter (fun r => r.country = d.country)).map
        (fun r => orZero r.ozone_aqi)).sum /
          ((data.filter (fun r => r.country = d.country)).length : ℚ)) ∧
      d.no2_aqi = some (((data.filter (fun r => r.country = d.country)).map
        (fun r => orZero r.no2_aqi)).sum /
          ((data.filter (fun r => r.country = d.country)).length : ℚ)) ∧
      d.pm25_aqi = some (((data.filter (fun r => r.country = d.country)).map
        (fun r => orZero r.pm25_aqi)).sum /
          ((data.filter (fun r => r.country = d.country)).length : ℚ)) ∧
      ((∀ r ∈ data, r.country = d.country → r.co_aqi = none) → d.co_aqi = some 0) ∧
      ((∀ r ∈ data, r.country = d.country → r.ozone_aqi = none) → d.ozone_aqi = some 0) ∧
      ((∀ r ∈ data, r.country = d.country → r.no2_aqi = none) → d.no2_aqi = some 0) ∧
      ((∀ r ∈ data, r.country = d.country → r.pm25_aqi = none) → d.pm25_aqi = some 0) := by
  obtain ⟨kv, hkv, rfl⟩ := List.mem_map.mp (List.mem_filter.mp hd).1
  obtain ⟨hrows, hne, _⟩ := group_mem data _ kv hkv
  have hmem : ∀ r ∈ kv.2, r ∈ data ∧ r.country = kv.1 := by
    intro r hr
    rw [hrows] at hr
    simpa using hr
  simp only
  rw [← hrows]
  refine ⟨List.length_pos.mpr hne, mean_of_ne_nil _ _ hne, mean_of_ne_nil _ _ hne,
    mean_of_ne_nil _ _ hne, mean_of_ne_nil _ _ hne, ?_, ?_, ?_, ?_⟩
  · exact fun h => mean_eq_zero_of_none kv.2 (fun r => r.co_aqi) hne
      (fun r hr => h r (hmem r hr).1 (hmem r hr).2)
  · exact fun h => mean_eq_zero_of_none kv.2 (fun r => r.ozone_aqi) hne
      (fun r hr => h r (hmem r hr).1 (hmem r hr).2)
  · exact fun h => mean_eq_zero_of_none kv.2 (fun r => r.no2_aqi) hne
      (fun r hr => h r (hmem r hr).1 (hmem r hr).2)
  · exact fun h => mean_eq_zero_of_none kv.2 (fun r => r.pm25_aqi) hne
      (fun r hr => h r (hmem r hr).1 (hmem r hr).2)

/-- C14, witness: one country with two rows, the `co_aqi` cell unreadable in both. -/
theorem countryPollutantData_mean_witness :
    (⟨"X", some 0, some 2, some 0, some 0⟩ : CountryPollutants).co_aqi = some 0 :=
  (countryPollutantData_mean
    [⟨"X", "a", "good", none, some 1, none, none⟩, ⟨"X", "b", "good", none, some 3, none, none⟩]
    ⟨"X", some 0, some 2, some 0, some 0⟩
    (by
      simp [countryPollutantData, topCountriesArr, rollup, group, groupPush, arraySort, mean,
        orZero]
      norm_num)).2.2.2.2.2.1
    (by
      intro r hr _
      simp only [List.mem_cons, List.mem_singleton, List.not_mem_nil, or_false] at hr
      rcases hr with rfl | rfl <;> rfl)

/-! ## Shared Top-15 ranking -/

theorem countries_tally (data : List Row) :
    (countries data).map (fun e => (⟨e.country, e.total⟩ : CountryCount)) =
      countryTally data := by
  simp only [countries, group_eq, List.map_map, countryTally]
  apply List.map_congr_left
  intro k _
  simp [List.countP_eq_length_filter]

theorem topCountries_countries (data : List Row) :
    (topCountries data).map (fun e => e.country) =
      (countryCounts data).map (fun d => d.country) := by
  have hsort : (arraySort (fun a b : CountryProportions => (b.total : Int) - (a.total : Int))
      (countries data)).map (fun e => (⟨e.country, e.total⟩ : CountryCount)) =
      arraySort (fun a b : CountryCount => (b.count : Int) - (a.count : Int))
        (countryTally data) := by
    rw [← countries_tally]
    exact List.map_insertionSort _ _ _ _ (fun _ _ _ _ => Iff.rfl)
  rw [countryCounts_eq, ← hsort, topCountries, List.map_take, List.map_take, List.map_map]
  rfl

theorem mem_topCountriesArr (data : List Row) (k : String) (h : k ∈ topCountriesArr data) :
    k ∈ data.map (fun d => d.country) := by
  obtain ⟨e, he, rfl⟩ := List.mem_map.mp h
  have he' := (arraySort_perm _ _).subset (List.mem_of_mem_take he)
  rw [rollup_country_eq, countryTally] at he'
  obtain ⟨k, hk, rfl⟩ := List.mem_map.mp he'
  exact (mem_firstOccurrences _ _).mp hk

/-- C15: on one filtered record sequence the ordered list of top-15 countries is the same in
`drawBarChart` (`countryCounts`), in `drawHeatmap` (`topCountries`) and in
`drawStackedBarChart` (`topCountriesArr`), and a country has an element in
`countryPollutantData` if and only if it is in that list. -/
theorem shared_top15 (data : List Row) :
    (countryCounts data).map (fun d => d.country) = topCountriesArr data ∧
      (topCountries data).map (fun e => e.country) = topCountriesArr data ∧
      (∀ k : String,
        k ∈ (countryPollutantData data).map (fun d => d.country) ↔
          k ∈ topCountriesArr data) := by
  have h1 : (countryCounts data).map (fun d => d.country) = topCountriesArr data := rfl
  refine ⟨h1, (topCountries_countries data).trans h1, ?_⟩
  intro k
  constructor
  · intro hk
    obtain ⟨d, hd, rfl⟩ := List.mem_map.mp hk
    simpa using (List.mem_filter.mp hd).2
  · intro hk
    have hkey := mem_topCountriesArr data k hk
    have hg : (k, data.filter (fun d => d.country = k)) ∈ group data (fun d => d.country) := by
      rw [group_eq]
      exact List.mem_map.mpr ⟨k, (mem_firstOccurrences _ _).mpr hkey, rfl⟩
    rw [countryPollutantData, List.mem_map]
    refine ⟨_, List.mem_filter.mpr ⟨List.mem_map.mpr ⟨_, hg, rfl⟩, ?_⟩, rfl⟩
    simpa using hk

/-! ## Selection State invariant -/

theorem updateDashboard_sublist (allData : List Row) (country category : String) :
    List.Sublist (updateDashboard allData country category) allData := by
  unfold updateDashboard
  by_cases hc : country = "all" <;> by_cases hk : category = "all"
  · simp [hc, hk]
  · simp only [hc, hk, if_true, ne_eq, not_false_eq_true]
    exact List.filter_sublist _
  · simp only [hc, hk, if_false, ne_eq, not_true_eq_false]
    exact List.filter_sublist _
  · simp only [hc, hk, if_false, ne_eq, not_false_eq_true, if_true]
    exact (List.filter_sublist _).trans (List.filter_sublist _)

/-- A label of a drawn slice is the capitalized `aqi_category` of a row of `allData`. -/
theorem displayedCategories_mem (allData : List Row) (s : SelectionState) (category : String)
    (h : category ∈ displayedCategories allData s) :
    ∃ r ∈ allData, category = capitalizeWords r.aqi_category := by
  obtain ⟨e, he, rfl⟩ := List.mem_map.mp h
  rw [categoryCounts_eq] at he
  have he' := (arraySort_perm _ _).subset he
  simp only [categoryTally, List.mem_map, mem_firstOccurrences] at he'
  obtain ⟨k, ⟨r, hr, rfl⟩, rfl⟩ := he'
  exact ⟨r, (updateDashboard_sublist _ _ _).subset hr, rfl⟩

/-- C16, as the code has it: in every state reachable from the first draw the active country
is "all" or a country of a row of the Record Store, and the active category is "all" or the
capitalized display label of the `aqi_category` of a row of the Record Store; such a label
has the same lower-case form as that `aqi_category`, it is not the normalized value
itself. -/
theorem reachable_selection (allData : List Row) (s : SelectionState)
    (h : Reachable allData s) :
    (s.selectedCountry = "all" ∨ s.selectedCountry ∈ allData.map (fun d => d.country)) ∧
      (s.selectedCategory = "all" ∨
        ∃ r ∈ allData, s.selectedCategory = capitalizeWords r.aqi_category ∧
          toLowerCase s.selectedCategory = toLowerCase r.aqi_category) := by
  induction h with
  | initial => exact ⟨Or.inl rfl, Or.inl rfl⟩
  | country s value _ hv ih => exact ⟨hv, ih.2⟩
  | click s category _ hc ih =>
    refine ⟨ih.1, ?_⟩
    by_cases heq : s.selectedCategory = category
    · left
      simp [sliceClicked, heq]
    · right
      obtain ⟨r, hr, hlabel⟩ := displayedCategories_mem allData s category hc
      have hnew : (sliceClicked s category).selectedCategory =
          capitalizeWords r.aqi_category := by
        simp [sliceClicked, heq, hlabel.symm]
      exact ⟨r, hr, hnew, by rw [hnew, toLowerCase_capitalizeWords]⟩

/-- C16, witness: country "X" chosen, then the slice "Good" clicked. -/
theorem reachable_selection_witness :
    ((sliceClicked (countryChanged initialState "X") "Good").selectedCountry = "all" ∨
        (sliceClicked (countryChanged initialState "X") "Good").selectedCountry ∈
          [sampleRow "X" "a" "good", sampleRow "Y" "b" "moderate"].map (fun d => d.country)) ∧
      ((sliceClicked (countryChanged initialState "X") "Good").selectedCategory = "all" ∨
        ∃ r ∈ [sampleRow "X" "a" "good", sampleRow "Y" "b" "moderate"],
          (sliceClicked (countryChanged initialState "X") "Good").selectedCategory =
            capitalizeWords r.aqi_category ∧
          toLowerCase (sliceClicked (countryChanged initialState "X") "Good").selectedCategory =
            toLowerCase r.aqi_category) :=
  reachable_selection _ _
    (Reachable.click _ "Good" (Reachable.country _ "X" Reachable.initial (by decide))
      (by decide))

/-- C16 as stated fails: with the single row of category "good" in the Record Store, a click
on the slice "Good" of the first draw reaches a state whose active category "Good" is not
"all", is not a normalized `aqi_category` of the store and is not an `aqi_category` of the
store. -/
theorem reachable_capitalized_category :
    Reachable [sampleRow "X" "a" "good"] (sliceClicked initialState "Good") ∧
      (sliceClicked initialState "Good").selectedCategory = "Good" ∧
      "Good" ≠ "all" ∧
      "Good" ∉ [sampleRow "X" "a" "good"].map (fun d => toLowerCase d.aqi_category) ∧
      "Good" ∉ [sampleRow "X" "a" "good"].map (fun d => d.aqi_category) :=
  ⟨Reachable.click _ "Good" Reachable.initial (by decide), by decide, by decide, by decide,
    by decide⟩

/-! ## Empty-result handling -/

theorem updateDashboard_mem (allData : List Row) (country category : String) (r : Row) :
    r ∈ updateDashboard allData country category ↔
      r ∈ allData ∧ (country = "all" ∨ r.country = country) ∧
        (category = "all" ∨
          (r.aqi_category ≠ "" ∧ toLowerCase r.aqi_category = toLowerCase category)) := by
  unfold updateDashboard
  by_cases hc : country = "all" <;> by_cases hk : category = "all" <;>
    simp [hc, hk, List.mem_filter, and_assoc]
  tauto

theorem foldl_newSet_mem (values acc : List String) (x : String) :
    x ∈ values.foldl (fun set y => if y ∈ set then set else set ++ [y]) acc ↔
      x ∈ acc ∨ x ∈ values := by
  induction values generalizing acc with
  | nil => simp
  | cons v vs ih =>
    rw [List.foldl_cons, ih]
    by_cases hv : v ∈ acc
    · simp only [hv, if_true, List.mem_cons]
      constructor
      · rintro (h | h)
        · exact Or.inl h
        · exact Or.inr (Or.inr h)
      · rintro (h | h | h)
        · exact Or.inl h
        · exact Or.inl (h ▸ hv)
        · exact Or.inr h
    · simp only [hv, if_false, List.mem_append, List.mem_singleton, List.mem_cons]
      tauto

theorem mem_aqiCategories (data : List Row) (category : String) :
    category ∈ aqiCategories data ↔ category ∈ data.map (fun d => d.aqi_category) := by
  rw [aqiCategories, sortStrings, List.mem_insertionSort, newSet, foldl_newSet_mem]
  simp

theorem groupedData_filtered_ne_nil (data : List Row) (category : String)
    (h : category ∈ aqiCategories data) :
    data.filter (fun d => d.aqi_category = category) ≠ [] := by
  rw [mem_aqiCategories] at h
  obtain ⟨r, hr, hk⟩ := List.mem_map.mp h
  intro he
  have : r ∈ data.filter (fun d => d.aqi_category = category) := by
    simp [List.mem_filter, hr, hk]
  rw [he] at this
  exact List.not_mem_nil _ this

/-- C17: on the empty filtered subset each of the six aggregations yields its empty result,
the empty marker for the hazardous cities, and `updateDashboard` yields the empty subset for
a filter combination that no row matches.  On every sequence of rows no aggregation produces
an undefined value: the means per country and per category are numbers and the proportions
of the heatmap are finite numbers. -/
theorem aggregations_empty_and_defined (data : List Row) :
    (countryCounts [] = [] ∧ categoryCounts [] = [] ∧ topCountries [] = [] ∧
        countryPollutantData [] = [] ∧ groupedData [] = [] ∧ cityData [] = [] ∧
        drawHorizontalBarChart [] = .noData) ∧
      (∀ country category : String,
        (∀ r ∈ data, ¬ ((country = "all" ∨ r.country = country) ∧
          (category = "all" ∨
            (r.aqi_category ≠ "" ∧ toLowerCase r.aqi_category = toLowerCase category)))) →
        updateDashboard data country category = []) ∧
      (∀ d ∈ countryPollutantData data,
        d.co_aqi.isSome ∧ d.ozone_aqi.isSome ∧ d.no2_aqi.isSome ∧ d.pm25_aqi.isSome) ∧
      (∀ d ∈ groupedData data,
        d.co_aqi.isSome ∧ d.ozone_aqi.isSome ∧ d.no2_aqi.isSome ∧ d.pm25_aqi.isSome) ∧
      (∀ e ∈ topCountries data, ∃ g m us u vu h : ℚ,
        e.good = .finite g ∧ e.moderate = .finite m ∧ e.unhealthy_sensitive = .finite us ∧
        e.unhealthy = .finite u ∧ e.very_unhealthy = .finite vu ∧ e.hazardous = .finite h) := by
  refine ⟨⟨rfl, rfl, rfl, rfl, rfl, rfl, rfl⟩, ?_, ?_, ?_, ?_⟩
  · intro country category hno
    rw [List.eq_nil_iff_forall_not_mem]
    intro r hr
    rw [updateDashboard_mem] at hr
    exact hno r hr.1 hr.2
  · intro d hd
    obtain ⟨kv, hkv, rfl⟩ := List.mem_map.mp (List.mem_filter.mp hd).1
    obtain ⟨_, hne, _⟩ := group_mem data _ kv hkv
    simp [mean_of_ne_nil _ _ hne]
  · intro d hd
    obtain ⟨category, hcat, rfl⟩ := List.mem_map.mp hd
    have hne := groupedData_filtered_ne_nil data category hcat
    simp [mean_of_ne_nil _ _ hne]
  · intro e he
    obtain ⟨kv, hkv, rfl⟩ := List.mem_map.mp (topCountries_subset data e he)
    obtain ⟨_, hne, _⟩ := group_mem data _ kv hkv
    exact ⟨_, _, _, _, _, _, proportion_eq _ _ hne, proportion_eq _ _ hne,
      proportion_eq _ _ hne, proportion_eq _ _ hne, proportion_eq _ _ hne,
      proportion_eq _ _ hne⟩

/-- C17, witness: the country "Z" matches no row of a store with the countries "X", "Y". -/
theorem aggregations_empty_and_defined_witness :
    updateDashboard [sampleRow "X" "a" "good", sampleRow "Y" "b" "moderate"] "Z" "all" = [] :=
  (aggregations_empty_and_defined _).2.1 "Z" "all" (by decide)

/-! ## Click-to-filter coherence -/

theorem toUpper_ne_a (c : Char) : c.toUpper ≠ 'a' := by
  by_cases h : c.toNat ≥ 97 ∧ c.toNat ≤ 122
  · obtain ⟨h1, h2⟩ := h
    have hc : c = Char.ofNat c.toNat := (Char.ofNat_toNat c).symm
    generalize c.toNat = n at *
    subst hc
    interval_cases n <;> decide
  · intro he
    have hu : c.toUpper = c := by simp [Char.toUpper, h]
    rw [hu] at he
    rw [he] at h
    exact h (by decide)

/-- No label of a slice is the text "all": the first character of a capitalized string is
never the lower-case letter `a`. -/
theorem capitalizeWords_ne_all (k : String) : capitalizeWords k ≠ "all" := by
  intro h
  have hd : capitalizeFrom false k.data = ['a', 'l', 'l'] := by
    have := congrArg String.data h
    simpa [capitalizeWords] using this
  cases hk : k.data with
  | nil =>
    rw [hk] at hd
    simp [capitalizeFrom] at hd
  | cons c cs =>
    rw [hk] at hd
    simp only [capitalizeFrom, Bool.not_false, Bool.and_true, List.cons.injEq] at hd
    by_cases hw : isWordChar c = true
    · rw [if_pos hw] at hd
      exact toUpper_ne_a c hd.1
    · rw [if_neg hw] at hd
      rw [hd.1] at hw
      exact hw (by decide)

/-- C18, as the code has it: for every string `k`, lowercase(capitalizeWords(k)) =
lowercase(k), and a click on the slice labelled capitalizeWords(k) from the category "all"
makes that label the active category.  For every `k` other than the empty string the filter
then keeps, of the rows drawn before the click, exactly those whose lower-cased
`aqi_category` is lowercase(k); so every row counted in the clicked slice is kept. -/
theorem click_to_filter (allData : List Row) (country k : String) :
    toLowerCase (capitalizeWords k) = toLowerCase k ∧
      (sliceClicked ⟨country, "all"⟩ (capitalizeWords k)).selectedCategory =
        capitalizeWords k ∧
      (k ≠ "" →
        filteredData allData (sliceClicked ⟨country, "all"⟩ (capitalizeWords k)) =
            (filteredData allData ⟨country, "all"⟩).filter
              (fun r => toLowerCase r.aqi_category = toLowerCase k) ∧
          ∀ r ∈ filteredData allData ⟨country, "all"⟩, r.aqi_category = k →
            r ∈ filteredData allData (sliceClicked ⟨country, "all"⟩ (capitalizeWords k))) := by
  have hstate : sliceClicked ⟨country, "all"⟩ (capitalizeWords k) =
      ⟨country, capitalizeWords k⟩ := by
    have : ¬ "all" = capitalizeWords k := fun e => capitalizeWords_ne_all k e.symm
    simp [sliceClicked, this]
  refine ⟨toLowerCase_capitalizeWords k, by rw [hstate], fun hk => ?_⟩
  have hmem : ∀ r, r ∈ filteredData allData (sliceClicked ⟨country, "all"⟩ (capitalizeWords k)) ↔
      r ∈ filteredData allData ⟨country, "all"⟩ ∧
        toLowerCase r.aqi_category = toLowerCase k := by
    intro r
    rw [hstate]
    simp only [filteredData, updateDashboard_mem, toLowerCase_capitalizeWords, true_or,
      and_true, capitalizeWords_ne_all, false_or]
    constructor
    · rintro ⟨h1, h2, _, h4⟩
      exact ⟨⟨h1, h2⟩, h4⟩
    · rintro ⟨⟨h1, h2⟩, h4⟩
      refine ⟨h1, h2, ?_, h4⟩
      intro he
      rw [he] at h4
      exact hk ((toLowerCase_eq_empty k).mp h4.symm)
  constructor
  · rw [hstate]
    have hne : capitalizeWords k ≠ "all" := capitalizeWords_ne_all k
    have h1 : filteredData allData ⟨country, capitalizeWords k⟩ =
        (filteredData allData ⟨country, "all"⟩).filter (fun d =>
          d.aqi_category ≠ "" ∧
            toLowerCase d.aqi_category = toLowerCase (capitalizeWords k)) := by
      simp [filteredData, updateDashboard, hne]
    rw [h1]
    apply List.filter_congr
    intro r _
    rw [toLowerCase_capitalizeWords]
    by_cases h : toLowerCase r.aqi_category = toLowerCase k
    · have hr : r.aqi_category ≠ "" := by
        intro he
        rw [he] at h
        exact hk ((toLowerCase_eq_empty k).mp h.symm)
      simp [h, hr]
    · simp [h]
  · intro r hr hrk
    exact (hmem r).mpr ⟨hr, by rw [hrk]⟩

/-- C18, witness: the slice of "good" clicked on a store that spells the category "good" and
"Good". -/
theorem click_to_filter_witness :
    filteredData
        [sampleRow "X" "a" "good", sampleRow "Y" "b" "Good", sampleRow "X" "c" "moderate"]
        (sliceClicked ⟨"all", "all"⟩ (capitalizeWords "good")) =
      (filteredData
        [sampleRow "X" "a" "good", sampleRow "Y" "b" "Good", sampleRow "X" "c" "moderate"]
        ⟨"all", "all"⟩).filter (fun r => toLowerCase r.aqi_category = toLowerCase "good") :=
  ((click_to_filter _ "all" "good").2.2 (by decide)).1

/-- C18 as stated fails for the empty string: a row whose `aqi_category` is empty is counted
in the slice labelled capitalizeWords("") = ""; after the click on that slice the filter
keeps no row, although lowercase of the row's category is lowercase(""). -/
theorem click_on_empty_category :
    categoryCounts (filteredData [sampleRow "X" "a" ""] ⟨"all", "all"⟩) =
        [⟨capitalizeWords "", 1⟩] ∧
      sampleRow "X" "a" "" ∈ filteredData [sampleRow "X" "a" ""] ⟨"all", "all"⟩ ∧
      toLowerCase (sampleRow "X" "a" "").aqi_category = toLowerCase "" ∧
      filteredData [sampleRow "X" "a" ""]
        (sliceClicked ⟨"all", "all"⟩ (capitalizeWords "")) = [] := by
  decide

end AirPollution
